import Mathlib

/-!
Verification development for the bdui projection/indexing engine.

The TypeScript sources are embedded shallowly:
- JS objects become structures; the four status strings become `Status`.
- `Map` objects (insertion-ordered, keyed by id) become association lists
  `List (String × Issue)`; `Map.get` becomes `List.lookup`.  All theorems that
  depend on map behaviour assume the ids involved are `Nodup`, under which the
  first-match semantics of `List.lookup`/`List.find?` coincides with the
  last-wins semantics of `Map.set`.
- In-place mutation of the shared issue objects becomes explicit state passing
  over the list of issues.
- JS numbers used as integer indices/offsets/timestamps become `Int`
  (timestamps are the values of `Date.getTime`); `localeCompare` is modelled
  as a total order comparison on strings returning -1/0/1.
- `[...arr].sort(cmp)` (a stable sort per the ECMAScript spec) becomes
  `List.mergeSort` with `le a b := cmp a b ≤ 0`.
- The two recursive view builders (`buildTree`, `buildDependencyLevels`)
  terminate in JS because their visited/path sets grow inside a finite id
  universe; they are embedded with an explicit fuel of `issues.length + 1`,
  which bounds the recursion depth for the same reason.
- IO side effects (SQL reads, notifications, config persistence) are outside
  the embedded state; only the pure data transformations are modelled.
-/

namespace Bdui

/-- Issue status, the four status strings of the sources
('open' | 'closed' | 'in_progress' | 'blocked'). -/
inductive Status where
  | open_
  | in_progress
  | blocked
  | closed
  deriving DecidableEq, Repr

/-- The fields of `Issue` (src/types.ts) used by the embedded operations.
Scalar fields never read by the embedded code (description, assignee, labels,
issue_type, closed_at, ...) are omitted.  `created_at`/`updated_at` are the
parsed timestamps (`new Date(s).getTime()`); `updated_at = none` models the
falsy (absent/empty) case the comparator defends against.  `parent = none`
models a falsy parent. -/
structure Issue where
  id : String
  title : String := ""
  status : Status
  priority : Int := 0
  created_at : Int := 0
  updated_at : Option Int := none
  parent : Option String := none
  children : List String := []
  blockedBy : List String := []
  blocks : List String := []
  deriving DecidableEq, Repr

/-- Lookup of an issue by id in the issues list; under `Nodup` ids this is
exactly `byId.get(key)` for the `Map` built by inserting the issues in order. -/
def byIdFind (issues : List Issue) (key : String) : Option Issue :=
  issues.find? (fun i => i.id == key)

/-- Sort fields of `SortField` in src/utils/constants.ts. -/
inductive SortField where
  | priority
  | created
  | updated
  | title
  deriving DecidableEq, Repr

/-- Sort orders of `SortOrder` in src/utils/constants.ts. -/
inductive SortOrder where
  | asc
  | desc
  deriving DecidableEq, Repr

/-- Model of `a.localeCompare(b)`: a three-way comparison for a total order
on strings (the embedding uses the lexicographic order). -/
def strCmp (a b : String) : Int :=
  if a < b then -1 else if b < a then 1 else 0

/-- Embeds `compareIssues` (src/utils/sorting.ts): three-way comparison keyed
by one field; `desc` negates the result.  `priority` subtracts the numeric
priorities (the `?? 0` fallback is the identity here since `priority` is not
nullable), `created`/`updated` subtract parsed timestamps with `updated`
falling back to `created` when falsy, `title` uses `localeCompare`. -/
def compareIssues (a b : Issue) (sortBy : SortField) (sortOrder : SortOrder) : Int :=
  let result : Int :=
    match sortBy with
    | .priority => a.priority - b.priority
    | .created => a.created_at - b.created_at
    | .updated => (a.updated_at.getD a.created_at) - (b.updated_at.getD b.created_at)
    | .title => strCmp a.title b.title
  match sortOrder with
  | .asc => result
  | .desc => -result

/-- Embeds `sortIssues` (src/utils/sorting.ts): `[...issues].sort(cmp)`,
a stable sort by the comparator, i.e. `mergeSort` with `le a b := cmp a b ≤ 0`. -/
def sortIssues (issues : List Issue) (sortBy : SortField) (sortOrder : SortOrder) : List Issue :=
  issues.mergeSort (fun a b => decide (compareIssues a b sortBy sortOrder ≤ 0))

/-- A dependency edge row: `(issue_id, depends_on_id, type)` as read from the
`dependencies` table (src/bd/parser.ts) or the JSONL `dependencies` entries. -/
structure Dep where
  issue_id : String
  depends_on_id : String
  type : String
  deriving DecidableEq, Repr

/-- Embeds one iteration of the dependency-building loop shared by
`loadBeadsFromSqlite` and `loadBeadsFromJsonl`: if `byId.get(dep.issue_id)`
is missing the edge is dropped; a `parent-child` edge sets the source's
`parent` and appends the source to the target's `children` (when the target
exists); a `blocks` edge appends the target to the source's `blockedBy` and
the source to the target's `blocks` (when the target exists); other edge
types are ignored.  The in-place object mutations become a map over the
issues list updating the records with the matching ids. -/
def applyDep (issues : List Issue) (dep : Dep) : List Issue :=
  match byIdFind issues dep.issue_id with
  | none => issues
  | some _ =>
    if dep.type == "parent-child" then
      issues.map (fun i =>
        let i1 := if i.id == dep.issue_id then { i with parent := some dep.depends_on_id } else i
        if i1.id == dep.depends_on_id then
          { i1 with children := i1.children ++ [dep.issue_id] } else i1)
    else if dep.type == "blocks" then
      issues.map (fun i =>
        let i1 := if i.id == dep.issue_id then
          { i with blockedBy := i.blockedBy ++ [dep.depends_on_id] } else i
        if i1.id == dep.depends_on_id then
          { i1 with blocks := i1.blocks ++ [dep.issue_id] } else i1)
    else issues

/-- The full dependency-building pass: the loop `for (const dep of dependencies)`. -/
def resolveDeps (issues : List Issue) (deps : List Dep) : List Issue :=
  deps.foldl applyDep issues

/-- The `blockedBy` filter predicate of the grouping loop:
`blocker && blocker.status !== 'closed'`. -/
def blockerKept (all : List Issue) (blockerId : String) : Bool :=
  match byIdFind all blockerId with
  | some blocker => blocker.status != Status.closed
  | none => false

/-- Per-issue part of the grouping loop that filters `blockedBy` down to
existing, non-closed blockers.  Blocker statuses are read from the resolved
issues (`byId`); statuses are never written, so reading them from the
pre-filter list is exactly the JS behaviour. -/
def finalizeIssue (all : List Issue) (i : Issue) : Issue :=
  { i with blockedBy := i.blockedBy.filter (blockerKept all) }

/-- The effective status used for bucketing:
`isBlocked && issue.status === 'open' ? 'blocked' : issue.status`. -/
def actualStatus (i : Issue) : Status :=
  if !i.blockedBy.isEmpty && i.status == Status.open_ then Status.blocked else i.status

/-- The dataset produced by a load (`BeadsData`), restricted to the fields the
embedded operations read: the issues list, the status buckets, and the id map.
The aggregate `stats` record is never read by the embedded operations and is
omitted. -/
structure Dataset where
  issues : List Issue
  byStatus : Status → List Issue
  byId : List (String × Issue)

/-- Embeds the shared tail of `loadBeadsFromSqlite`/`loadBeadsFromJsonl` from
the point where `issues` and `byId` are populated: build the dependency
relationships, then filter each issue's `blockedBy` to existing non-closed
blockers and group the issues by effective status (`byStatus[actualStatus]`
exists for every effective status, so every issue is appended to exactly the
bucket of its effective status, in issues order). -/
def loadDataset (rawIssues : List Issue) (deps : List Dep) : Dataset :=
  let resolved := resolveDeps rawIssues deps
  let finalIssues := resolved.map (finalizeIssue resolved)
  { issues := finalIssues
    byStatus := fun s => finalIssues.filter (fun i => actualStatus i == s)
    byId := finalIssues.map (fun i => (i.id, i)) }

/-- Embeds `StatusChange` (src/utils/notifications.ts). -/
structure StatusChange where
  issue : Issue
  oldStatus : Status
  newStatus : Status
  deriving DecidableEq, Repr

/-- Embeds `detectStatusChanges` (src/utils/notifications.ts): iterate the new
map in insertion order; for every id also present in the old map whose status
differs, push one `StatusChange` with the new issue and both statuses. -/
def detectStatusChanges (oldIssues newIssues : List (String × Issue)) : List StatusChange :=
  newIssues.filterMap (fun p =>
    match oldIssues.lookup p.1 with
    | some oldIssue =>
      if oldIssue.status != p.2.status then
        some { issue := p.2, oldStatus := oldIssue.status, newStatus := p.2.status }
      else none
    | none => none)

/-- Embeds `ColumnState` (src/state/store.ts): per-bucket selection by stable
issue id plus scroll offset. -/
structure ColumnState where
  selectedIssueId : Option String
  scrollOffset : Int
  deriving DecidableEq, Repr

/-- Per-bucket sort setting (one entry of `SortConfig`). -/
structure SortSpec where
  sortBy : SortField
  sortOrder : SortOrder
  deriving DecidableEq, Repr

/-- Embeds the `STATUS_KEYS` array of src/state/store.ts. -/
def STATUS_KEYS : List Status :=
  [Status.open_, Status.in_progress, Status.blocked, Status.closed]

/-- The slice of the Zustand store (src/state/store.ts) read or written by the
embedded actions.  The per-key records `columnStates`, `sortConfig` and
`sortedByStatus` are embedded as functions from `Status`; `selectedColumn`
is an index into `STATUS_KEYS`, kept in `[0,3]` by `moveLeft`/`moveRight`. -/
structure StoreState where
  data : Dataset
  previousIssues : List (String × Issue)
  selectedColumn : Fin 4
  columnStates : Status → ColumnState
  itemsPerPage : Int
  sortConfig : Status → SortSpec
  sortedByStatus : Status → List Issue
  showJumpToPage : Bool

/-- `STATUS_KEYS[selectedColumn]`. -/
def statusKeyOf (c : Fin 4) : Status :=
  STATUS_KEYS.get ⟨c.val, c.isLt⟩

/-- Record update of one key of the `columnStates` record
(`... columnStates, [statusKey]: v ...`). -/
def setColumn (cs : Status → ColumnState) (key : Status) (v : ColumnState) :
    Status → ColumnState :=
  fun s => if s == key then v else cs s

/-- Embeds `computeSortedByStatus` (src/state/store.ts): each bucket sorted by
its own sort configuration. -/
def computeSortedByStatus (data : Dataset) (sortConfig : Status → SortSpec) :
    Status → List Issue :=
  fun s => sortIssues (data.byStatus s) (sortConfig s).sortBy (sortConfig s).sortOrder

/-- One iteration of `setData`'s validation loop: if no issue is selected, or
the selected issue no longer exists in this column, select the first one
(or null for an empty column) and reset the scroll offset; otherwise leave
the column state untouched. -/
def validateColumn (issuesInColumn : List Issue) (current : ColumnState) : ColumnState :=
  match current.selectedIssueId with
  | none => { selectedIssueId := (issuesInColumn.head?).map Issue.id, scrollOffset := 0 }
  | some sel =>
    if (issuesInColumn.find? (fun i => i.id == sel)).isNone then
      { selectedIssueId := (issuesInColumn.head?).map Issue.id, scrollOffset := 0 }
    else current

/-- Embeds `setData` (src/state/store.ts): recompute the sorted buckets,
validate every column state against them, store the new dataset and clone its
id map into `previousIssues` for the next diff.  The notification side effect
(`notifyStatusChange`) does not touch the store state and is not modelled. -/
def setData (st : StoreState) (data : Dataset) : StoreState :=
  let sorted := computeSortedByStatus data st.sortConfig
  { st with
    data := data
    sortedByStatus := sorted
    previousIssues := data.byId
    columnStates := fun s => validateColumn (sorted s) (st.columnStates s) }

/-- JS `Array.findIndex`: index of the first match, -1 when there is none. -/
def jsFindIndex (p : Issue → Bool) (l : List Issue) : Int :=
  match l.findIdx? p with
  | some i => (i : Int)
  | none => -1

/-- The id of `issues[idx]` when `idx` is in range (the JS code only indexes
in range, guarded by `newIndex >= 0 && newIndex < issues.length` or by the
surrounding branch condition). -/
def idAtInt (issues : List Issue) (idx : Int) : Option String :=
  if 0 ≤ idx ∧ idx < (issues.length : Int) then (issues[idx.toNat]?).map Issue.id else none

/-- Embeds `moveUp` (src/state/store.ts): find the selected issue's index in
the sorted bucket; when positive, select the previous issue, pulling the
scroll offset up to the new index when the new index is above the window. -/
def moveUp (st : StoreState) : StoreState :=
  let statusKey := statusKeyOf st.selectedColumn
  let issues := st.sortedByStatus statusKey
  let currentState := st.columnStates statusKey
  let currentIndex := jsFindIndex (fun i => currentState.selectedIssueId == some i.id) issues
  if currentIndex > 0 then
    let newIndex := currentIndex - 1
    let newOffset :=
      if newIndex < currentState.scrollOffset then newIndex else currentState.scrollOffset
    let newState : ColumnState := ⟨idAtInt issues newIndex, newOffset⟩
    { st with columnStates := setColumn st.columnStates statusKey newState }
  else st

/-- Embeds `moveDown` (src/state/store.ts): find the selected issue's index in
the sorted bucket; when below the last index, select the next issue, pushing
the scroll offset to `newIndex - itemsPerPage + 1` when the new index falls
below the window. -/
def moveDown (st : StoreState) : StoreState :=
  let statusKey := statusKeyOf st.selectedColumn
  let issues := st.sortedByStatus statusKey
  let currentState := st.columnStates statusKey
  let currentIndex := jsFindIndex (fun i => currentState.selectedIssueId == some i.id) issues
  if currentIndex < (issues.length : Int) - 1 then
    let newIndex := currentIndex + 1
    let newOffset :=
      if currentState.scrollOffset + st.itemsPerPage ≤ newIndex then
        newIndex - st.itemsPerPage + 1
      else currentState.scrollOffset
    let newState : ColumnState := ⟨idAtInt issues newIndex, newOffset⟩
    { st with columnStates := setColumn st.columnStates statusKey newState }
  else st

/-- Embeds `jumpToFirst` (src/state/store.ts). -/
def jumpToFirst (st : StoreState) : StoreState :=
  let statusKey := statusKeyOf st.selectedColumn
  let issues := st.sortedByStatus statusKey
  let newState : ColumnState := ⟨(issues.head?).map Issue.id, 0⟩
  { st with columnStates := setColumn st.columnStates statusKey newState }

/-- Embeds `jumpToLast` (src/state/store.ts). -/
def jumpToLast (st : StoreState) : StoreState :=
  let statusKey := statusKeyOf st.selectedColumn
  let issues := st.sortedByStatus statusKey
  let lastIndex : Int := max 0 ((issues.length : Int) - 1)
  let newOffset : Int := max 0 (lastIndex - st.itemsPerPage + 1)
  let newState : ColumnState :=
    ⟨if issues.isEmpty then none else idAtInt issues lastIndex, newOffset⟩
  { st with columnStates := setColumn st.columnStates statusKey newState }

/-- `Math.ceil(a / b)` for a positive divisor `b`: `-((-a) / b)` with floor
division. -/
def ceilDivInt (a b : Int) : Int :=
  -((-a).ediv b)

/-- `Math.ceil(issues.length / itemsPerPage) || 1`, shared by `getTotalPages`
and `jumpToPage` (src/state/store.ts); defined for `itemsPerPage ≥ 1`, which
`setTerminalSize` guarantees. -/
def totalPagesOf (len itemsPerPage : Int) : Int :=
  let t := ceilDivInt len itemsPerPage
  if t == 0 then 1 else t

/-- Embeds `getTotalPages` (src/state/store.ts). -/
def getTotalPages (st : StoreState) : Int :=
  let statusKey := statusKeyOf st.selectedColumn
  let issues := st.sortedByStatus statusKey
  totalPagesOf (issues.length : Int) st.itemsPerPage

/-- Embeds `jumpToPage` (src/state/store.ts): clamp the requested page to
`[1, totalPages]`, set the scroll offset to the page start, select the issue
there (clamped to the last index; null when out of range) and close the
jump-to-page overlay. -/
def jumpToPage (st : StoreState) (page : Int) : StoreState :=
  let statusKey := statusKeyOf st.selectedColumn
  let issues := st.sortedByStatus statusKey
  let totalPages := totalPagesOf (issues.length : Int) st.itemsPerPage
  let validPage := max 1 (min page totalPages)
  let newOffset := (validPage - 1) * st.itemsPerPage
  let newIndex := min newOffset ((issues.length : Int) - 1)
  let newState : ColumnState := ⟨idAtInt issues newIndex, newOffset⟩
  { st with
    columnStates := setColumn st.columnStates statusKey newState
    showJumpToPage := false }

/-- Frame property of one navigation action: every store field other than the
selected column's own column state and the jump-to-page overlay flag is left
unchanged, and the other three columns keep their states. -/
def framePreserved (st st2 : StoreState) : Prop :=
  st2.data = st.data ∧
  st2.previousIssues = st.previousIssues ∧
  st2.selectedColumn = st.selectedColumn ∧
  st2.itemsPerPage = st.itemsPerPage ∧
  st2.sortConfig = st.sortConfig ∧
  st2.sortedByStatus = st.sortedByStatus ∧
  ∀ k : Status, k ≠ statusKeyOf st.selectedColumn → st2.columnStates k = st.columnStates k

/-- Embeds `GraphNode` (DependencyGraph component). -/
structure GraphNode where
  issue : Issue
  level : Nat
  column : Nat
  deriving DecidableEq, Repr

/-- Embeds `getLevel` of `buildDependencyLevels` (DependencyGraph component):
an issue already placed (`processed`) yields the index of the row holding it
(0 when not found); an id already on the current path yields 0 (cycle
broken); otherwise 1 + the maximum over the blockers that resolve to real
issues of the blocker's level, each recursive call receiving a copy of the
path extended with this issue's id.  The recursion depth is bounded by the
number of distinct ids on the path, so `issues.length + 1` fuel reproduces
the JS recursion exactly. -/
def getLevelFuel (byId : List (String × Issue)) (levels : List (List GraphNode))
    (processed : List String) : Nat → Issue → List String → Nat
  | 0, _, _ => 0
  | fuel+1, issue, visitedPath =>
    if processed.contains issue.id then
      match levels.findIdx? (fun level => level.any (fun node => node.issue.id == issue.id)) with
      | some found => found
      | none => 0
    else if visitedPath.contains issue.id then 0
    else
      let path := visitedPath ++ [issue.id]
      issue.blockedBy.foldl (fun maxDepLevel depId =>
        match byId.lookup depId with
        | some dep => max maxDepLevel (getLevelFuel byId levels processed fuel dep path + 1)
        | none => maxDepLevel) 0

/-- The participation filter of `buildDependencyLevels`: the issue has a
blocker, a blockee, a parent or a child. -/
def hasRelationship (i : Issue) : Bool :=
  !i.blockedBy.isEmpty || !i.blocks.isEmpty || i.parent.isSome || !i.children.isEmpty

/-- `levels[level] = levels[level] ?? []; levels[level].push(node)`: extend the
rows list up to index `lvl` (JS array holes behave exactly like empty rows for
every consumer: `level && level.some` skips them and `flat()` drops them) and
append the node, whose `column` is the row length before the push. -/
def pushAtLevel (levels : List (List GraphNode)) (lvl : Nat) (issue : Issue) :
    List (List GraphNode) :=
  let padded := levels ++ List.replicate (lvl + 1 - levels.length) []
  let row := padded.getD lvl []
  padded.set lvl (row ++ [{ issue := issue, level := lvl, column := row.length }])

/-- Embeds `buildDependencyLevels` (DependencyGraph component): compute a
level for every issue that participates in some relationship, in issues
order, marking each as processed after placing it. -/
def buildDependencyLevels (data : Dataset) : List (List GraphNode) :=
  let issuesWithDeps := data.issues.filter hasRelationship
  (issuesWithDeps.foldl (fun acc issue =>
    let lvl := getLevelFuel data.byId acc.1 acc.2 (data.issues.length + 1) issue []
    (pushAtLevel acc.1 lvl issue, acc.2 ++ [issue.id]))
    (([] : List (List GraphNode)), ([] : List String))).1

/-- Modelled from the claim wording for the dependency levels: the pure
path-based recursion `level(issue) = 0` when no blockers resolve to real
issues, else `1 + max` over the resolving blockers of the blocker's level,
where a blocker already on the current recursion path contributes level 0;
no memoisation.  Used to compare the source's memoized computation against
the claimed formula. -/
def claimLevelFuel (byId : List (String × Issue)) : Nat → Issue → List String → Nat
  | 0, _, _ => 0
  | fuel+1, issue, path =>
    if path.contains issue.id then 0
    else
      issue.blockedBy.foldl (fun maxDepLevel depId =>
        match byId.lookup depId with
        | some dep => max maxDepLevel (claimLevelFuel byId fuel dep (path ++ [issue.id]) + 1)
        | none => maxDepLevel) 0

/-- Embeds `TreeNode` (src/components/TreeView.tsx). -/
inductive TreeNode where
  | node (issue : Issue) (children : List TreeNode) (depth : Nat)

/-- The issue of a tree node. -/
def TreeNode.issue : TreeNode → Issue
  | .node i _ _ => i

/-- The children of a tree node. -/
def TreeNode.children : TreeNode → List TreeNode
  | .node _ c _ => c

/-- The depth of a tree node. -/
def TreeNode.depth : TreeNode → Nat
  | .node _ _ d => d

/-- All issue ids in a tree, in depth-first order. -/
def TreeNode.ids : TreeNode → List String
  | .node i cs _ => i.id :: (cs.attach.map (fun c => TreeNode.ids c.val)).flatten
decreasing_by
  have := List.sizeOf_lt_of_mem c.property
  simp only [TreeNode.node.sizeOf_spec]
  omega

/-- All issue ids in a forest, in depth-first order. -/
def forestIds (ts : List TreeNode) : List String :=
  (ts.map TreeNode.ids).flatten

/-- Embeds `buildNode` of `buildTree` (src/components/TreeView.tsx): mark the
issue as processed, then recurse into the children ids that resolve to real
issues and are not yet processed, threading the shared processed set through
the traversal.  Fueled like `getLevelFuel`; the processed set grows inside
the finite id universe, so `issues.length + 1` fuel reproduces the JS
recursion exactly. -/
def buildNodeFuel (byId : List (String × Issue)) :
    Nat → Issue → Nat → List String → TreeNode × List String
  | 0, issue, depth, processed => (TreeNode.node issue [] depth, processed)
  | fuel+1, issue, depth, processed =>
    let processed1 := processed ++ [issue.id]
    let r := issue.children.foldl (fun acc childId =>
      match byId.lookup childId with
      | some child =>
        if acc.2.contains childId then acc
        else
          let cr := buildNodeFuel byId fuel child (depth + 1) acc.2
          (acc.1 ++ [cr.1], cr.2)
      | none => acc) (([] : List TreeNode), processed1)
    (TreeNode.node issue r.1 depth, r.2)

/-- The root filter of `buildTree`: no parent, or the parent id is not in
`byId`. -/
def isRootIssue (byId : List (String × Issue)) (issue : Issue) : Bool :=
  match issue.parent with
  | none => true
  | some p => (byId.lookup p).isNone

/-- Embeds `buildTree` (src/components/TreeView.tsx): depth-first traversal
from each root issue not already processed, sharing one processed set across
the whole traversal. -/
def buildTree (data : Dataset) : List TreeNode :=
  let rootIssues := data.issues.filter (isRootIssue data.byId)
  (rootIssues.foldl (fun acc rootIssue =>
    if acc.2.contains rootIssue.id then acc
    else
      let r := buildNodeFuel data.byId (data.issues.length + 1) rootIssue 0 acc.2
      (acc.1 ++ [r.1], r.2))
    (([] : List TreeNode), ([] : List String))).1

/-! ### Concrete fixtures used by witnesses and counterexamples -/

/-- An open issue with id a. -/
def exA0 : Issue := { id := "a", status := Status.open_ }

/-- A closed issue with id a. -/
def exA1 : Issue := { id := "a", status := Status.closed }

/-- A previous snapshot holding an open a. -/
def exOldMap : List (String × Issue) := [("a", exA0)]

/-- A new snapshot holding a closed a. -/
def exNewMap : List (String × Issue) := [("a", exA1)]

/-- A closed issue that blocks an open one. -/
def cexBlockerA : Issue := { id := "a", status := Status.closed }

/-- An open issue blocked by a closed issue. -/
def cexBlockedB : Issue := { id := "b", status := Status.open_ }

/-- One blocks edge from a to b (so b is blocked by a). -/
def cexDeps : List Dep := [{ issue_id := "b", depends_on_id := "a", type := "blocks" }]

/-- One half of a two-cycle of blockers. -/
def cexX : Issue := { id := "x", status := Status.open_, blockedBy := ["y"] }

/-- The other half of a two-cycle of blockers. -/
def cexY : Issue := { id := "y", status := Status.open_, blockedBy := ["x"] }

/-- A dataset whose two issues block each other. -/
def cexCycleData : Dataset :=
  { issues := [cexX, cexY], byStatus := fun _ => [],
    byId := [cexX, cexY].map (fun i => (i.id, i)) }

/-- A parentless issue holding a stale child entry pointing at cexR. -/
def cexQ : Issue := { id := "q", status := Status.open_, children := ["r"] }

/-- An issue with an unresolved parent that is also listed as a child of cexQ. -/
def cexR : Issue := { id := "r", status := Status.open_, parent := some "ghost" }

/-- A dataset where a parent-unresolved issue is reachable as a child. -/
def cexTreeData : Dataset :=
  { issues := [cexQ, cexR], byStatus := fun _ => [],
    byId := [cexQ, cexR].map (fun i => (i.id, i)) }

/-- Example issue of priority 3. -/
def exI1 : Issue := { id := "i1", status := Status.open_, priority := 3 }

/-- Example issue of priority 2. -/
def exI2 : Issue := { id := "i2", status := Status.open_, priority := 2 }

/-- Example issue of priority 1. -/
def exI3 : Issue := { id := "i3", status := Status.open_, priority := 1 }

/-- Example open bucket, already sorted by priority desc. -/
def exBucket : List Issue := [exI1, exI2, exI3]

/-- Example dataset with three open issues. -/
def exData : Dataset :=
  { issues := exBucket
    byStatus := fun s => if s == Status.open_ then exBucket else []
    byId := exBucket.map (fun i => (i.id, i)) }

/-- Example dataset lacking the issue i2. -/
def exDataSmall : Dataset :=
  { issues := [exI1, exI3]
    byStatus := fun s => if s == Status.open_ then [exI1, exI3] else []
    byId := [exI1, exI3].map (fun i => (i.id, i)) }

/-- Example store state: open column selected, second issue selected,
two items per page. -/
def exStore : StoreState :=
  { data := exData
    previousIssues := exData.byId
    selectedColumn := ⟨0, by omega⟩
    columnStates := fun _ => { selectedIssueId := some "i2", scrollOffset := 0 }
    itemsPerPage := 2
    sortConfig := fun _ => { sortBy := SortField.priority, sortOrder := SortOrder.desc }
    sortedByStatus := fun s => if s == Status.open_ then exBucket else []
    showJumpToPage := true }

/-! ### Helper lemmas about association-list lookup -/

theorem lookup_eq_some_of_nodup {l : List (String × Issue)}
    (hn : (l.map Prod.fst).Nodup) {k : String} {v : Issue} (h : (k, v) ∈ l) :
    l.lookup k = some v := by
  induction l with
  | nil => cases h
  | cons p rest ih =>
    obtain ⟨a, b⟩ := p
    simp only [List.map_cons, List.nodup_cons, List.mem_map] at hn
    rcases List.mem_cons.1 h with h | h
    · injection h with h1 h2
      subst h1; subst h2
      simp [List.lookup_cons]
    · have hne : (k == a) = false := beq_eq_false_iff_ne.2 fun he => hn.1 ⟨(k, v), h, he⟩
      rw [List.lookup_cons, hne]
      exact ih hn.2 h

theorem mem_of_lookup_eq_some {l : List (String × Issue)} {k : String} {v : Issue}
    (h : l.lookup k = some v) : (k, v) ∈ l := by
  induction l with
  | nil => simp at h
  | cons p rest ih =>
    obtain ⟨a, b⟩ := p
    rw [List.lookup_cons] at h
    cases hbe : k == a with
    | true =>
      rw [hbe] at h
      cases h
      exact List.mem_cons.2 (Or.inl (by rw [beq_iff_eq.1 hbe]))
    | false =>
      rw [hbe] at h
      exact List.mem_cons.2 (Or.inr (ih h))

/-! ### C4: change detection -/

theorem detectStatusChanges_cons (oldIssues : List (String × Issue)) (k : String)
    (v : Issue) (rest : List (String × Issue)) :
    detectStatusChanges oldIssues ((k, v) :: rest) =
      match oldIssues.lookup k with
      | some oldI =>
        if oldI.status != v.status then
          ({ issue := v, oldStatus := oldI.status, newStatus := v.status } : StatusChange) ::
            detectStatusChanges oldIssues rest
        else detectStatusChanges oldIssues rest
      | none => detectStatusChanges oldIssues rest := by
  unfold detectStatusChanges
  rw [List.filterMap_cons]
  cases oldIssues.lookup k with
  | none => rfl
  | some oldI =>
    by_cases hst : oldI.status = v.status
    · simp [hst]
    · simp [hst]

theorem mem_detectStatusChanges {oldIssues newIssues : List (String × Issue)}
    {c : StatusChange} (h : c ∈ detectStatusChanges oldIssues newIssues) :
    ∃ p ∈ newIssues, c.issue = p.2 ∧ c.newStatus = p.2.status ∧
      ∃ oldI, oldIssues.lookup p.1 = some oldI ∧ c.oldStatus = oldI.status ∧
        oldI.status ≠ p.2.status := by
  unfold detectStatusChanges at h
  rcases List.mem_filterMap.1 h with ⟨p, hp, hf⟩
  cases hlook : oldIssues.lookup p.1 with
  | none => rw [hlook] at hf; simp at hf
  | some oldI =>
    rw [hlook] at hf
    by_cases hst : oldI.status = p.2.status
    · simp [hst] at hf
    · simp only [bne_iff_ne, ne_eq, hst, not_false_eq_true, if_true] at hf
      cases hf
      exact ⟨p, hp, rfl, rfl, oldI, hlook, rfl, hst⟩

theorem detectStatusChanges_countP {oldIssues newIssues : List (String × Issue)}
    (hn : (newIssues.map Prod.fst).Nodup)
    (hwf : ∀ p ∈ newIssues, (p.2 : Issue).id = p.1) (id : String) :
    (detectStatusChanges oldIssues newIssues).countP (fun c => c.issue.id == id) =
      match newIssues.lookup id with
      | some newI =>
        match oldIssues.lookup id with
        | some oldI => if oldI.status ≠ newI.status then 1 else 0
        | none => 0
      | none => 0 := by
  induction newIssues with
  | nil => simp [detectStatusChanges]
  | cons p rest ih =>
    obtain ⟨k, v⟩ := p
    simp only [List.map_cons, List.nodup_cons, List.mem_map] at hn
    have hwf' : ∀ q ∈ rest, (q.2 : Issue).id = q.1 :=
      fun q hq => hwf q (List.mem_cons_of_mem _ hq)
    have hid : v.id = k := hwf (k, v) (List.mem_cons_self _ _)
    have hrest := ih hn.2 hwf'
    rw [detectStatusChanges_cons]
    by_cases hk : k = id
    · subst hk
      have hlookid : rest.lookup k = none := by
        cases hlr : rest.lookup k with
        | none => rfl
        | some w => exact absurd ⟨(k, w), mem_of_lookup_eq_some hlr, rfl⟩ hn.1
      rw [show List.lookup k ((k, v) :: rest) = some v from by simp [List.lookup_cons]]
      cases hlook : oldIssues.lookup k with
      | none =>
        rw [hrest, hlookid]
      | some oldI =>
        by_cases hst : oldI.status = v.status
        · simp only [bne_iff_ne, ne_eq, hst, not_true_eq_false, if_false, ite_false]
          rw [hrest, hlookid]
        · simp only [bne_iff_ne, ne_eq, hst, not_false_eq_true, if_true, ite_true,
            List.countP_cons]
          rw [hrest, hlookid]
          simp [hid]
    · have hne : (id == k) = false := beq_eq_false_iff_ne.2 fun he => hk he.symm
      rw [List.lookup_cons, hne]
      cases hlook : oldIssues.lookup k with
      | none => exact hrest
      | some oldI =>
        by_cases hst : oldI.status = v.status
        · simpa only [bne_iff_ne, ne_eq, hst, not_true_eq_false, if_false] using hrest
        · simp only [bne_iff_ne, ne_eq, hst, not_false_eq_true, if_true, List.countP_cons]
          rw [hrest]
          have hvid : (v.id == id) = false := beq_eq_false_iff_ne.2 (by rw [hid]; exact hk)
          simp [hvid]

/-- C4: for any previous and new id-to-issue maps (with well-formed, duplicate-free
keys), detectStatusChanges emits exactly one StatusChange with the new issue,
the old status and the new status for each id present in both maps whose
status differs, emits nothing for ids present in only one map, emits only
changes arising from such differing pairs, and emits the empty list when the
two maps are identical. -/
theorem detectStatusChanges_correct (oldIssues newIssues : List (String × Issue))
    (hnNew : (newIssues.map Prod.fst).Nodup)
    (hwf : ∀ p ∈ newIssues, (p.2 : Issue).id = p.1) :
    (∀ id oldI newI, oldIssues.lookup id = some oldI → newIssues.lookup id = some newI →
      oldI.status ≠ newI.status →
      (detectStatusChanges oldIssues newIssues).countP (fun c => c.issue.id == id) = 1 ∧
      ({ issue := newI, oldStatus := oldI.status, newStatus := newI.status } : StatusChange) ∈
        detectStatusChanges oldIssues newIssues) ∧
    (∀ id, (oldIssues.lookup id = none ∨ newIssues.lookup id = none) →
      ∀ c ∈ detectStatusChanges oldIssues newIssues, c.issue.id ≠ id) ∧
    (∀ c ∈ detectStatusChanges oldIssues newIssues,
      ∃ oldI, oldIssues.lookup c.issue.id = some oldI ∧ c.oldStatus = oldI.status ∧
        newIssues.lookup c.issue.id = some c.issue ∧ c.newStatus = c.issue.status ∧
        c.oldStatus ≠ c.newStatus) ∧
    (oldIssues = newIssues → detectStatusChanges oldIssues newIssues = []) := by
  refine ⟨?_, ?_, ?_, ?_⟩
  · intro id oldI newI hold hnew hst
    constructor
    · rw [detectStatusChanges_countP hnNew hwf id, hnew, hold]
      simp [hst]
    · refine List.mem_filterMap.2 ⟨(id, newI), mem_of_lookup_eq_some hnew, ?_⟩
      rw [hold]
      simp [hst]
  · intro id hnone c hc hcid
    rcases mem_detectStatusChanges hc with ⟨p, hp, hcp, _, oldI, holdp, _, _⟩
    have hpid : p.1 = id := by rw [← hcid, hcp]; exact (hwf p hp).symm
    rcases hnone with hnone | hnone
    · rw [hpid] at holdp
      rw [holdp] at hnone
      cases hnone
    · have := lookup_eq_some_of_nodup hnNew hp
      rw [hpid] at this
      rw [this] at hnone
      cases hnone
  · intro c hc
    rcases mem_detectStatusChanges hc with ⟨p, hp, hcp, hcn, oldI, holdp, hco, hne⟩
    have hpid : c.issue.id = p.1 := by rw [hcp]; exact hwf p hp
    refine ⟨oldI, by rw [hpid]; exact holdp, hco, ?_, by rw [hcn, hcp], ?_⟩
    · rw [hcp, hwf p hp]
      exact lookup_eq_some_of_nodup hnNew hp
    · rw [hco, hcn]
      exact hne
  · rintro rfl
    rw [List.eq_nil_iff_forall_not_mem]
    intro c hc
    rcases mem_detectStatusChanges hc with ⟨p, hp, _, _, oldI, holdp, _, hne⟩
    have : oldIssues.lookup p.1 = some p.2 := lookup_eq_some_of_nodup hnNew hp
    rw [this] at holdp
    cases holdp
    exact hne rfl

/-- Witness for C4 at a concrete pair of snapshots: a flips from open to
closed, producing exactly one change; diffing a snapshot against itself
produces no changes. -/
theorem detectStatusChanges_correct_witness :
    (detectStatusChanges exOldMap exNewMap).countP (fun c => c.issue.id == "a") = 1 ∧
    detectStatusChanges exNewMap exNewMap = [] := by
  have h := detectStatusChanges_correct exOldMap exNewMap (by decide) (by decide)
  have h2 := detectStatusChanges_correct exNewMap exNewMap (by decide) (by decide)
  exact ⟨(h.1 "a" exA0 exA1 (by decide) (by decide) (by decide)).1, h2.2.2.2 rfl⟩

/-! ### C7: sort stability and idempotence -/

theorem strCmp_neg (a b : String) : strCmp b a = -strCmp a b := by
  unfold strCmp
  rcases lt_trichotomy a b with h | h | h
  · simp [h, asymm h]
  · subst h
    simp [lt_irrefl]
  · simp [h, asymm h]

theorem strCmp_nonpos_iff (a b : String) : strCmp a b ≤ 0 ↔ a ≤ b := by
  unfold strCmp
  rcases lt_trichotomy a b with h | h | h
  · simp [h, le_of_lt h]
  · subst h
    simp [lt_irrefl]
  · simp only [asymm h, ite_false, h, ite_true]
    constructor
    · intro habs
      omega
    · intro hle
      exact absurd h (not_lt.2 hle)

theorem strCmp_eq_zero_iff (a b : String) : strCmp a b = 0 ↔ a = b := by
  unfold strCmp
  rcases lt_trichotomy a b with h | h | h
  · simp [h, ne_of_lt h]
  · subst h
    simp [lt_irrefl]
  · simp only [asymm h, ite_false, h, ite_true]
    constructor
    · intro habs
      omega
    · intro he
      exact absurd h (he ▸ lt_irrefl a)

theorem compareIssues_neg (a b : Issue) (f : SortField) (o : SortOrder) :
    compareIssues b a f o = -compareIssues a b f o := by
  cases f <;> cases o <;> simp only [compareIssues] <;>
    first
      | omega
      | (rw [strCmp_neg]; try omega)

theorem compareIssues_le_total (a b : Issue) (f : SortField) (o : SortOrder) :
    compareIssues a b f o ≤ 0 ∨ compareIssues b a f o ≤ 0 := by
  rw [compareIssues_neg]
  omega

theorem compareIssues_trans {f : SortField} {o : SortOrder} {a b c : Issue}
    (h1 : compareIssues a b f o ≤ 0) (h2 : compareIssues b c f o ≤ 0) :
    compareIssues a c f o ≤ 0 := by
  cases f <;> cases o <;>
    simp only [compareIssues, neg_le, neg_zero] at h1 h2 ⊢ <;>
    first
      | omega
      | (rw [strCmp_nonpos_iff] at h1 h2 ⊢; exact le_trans h1 h2)
      | (rw [← strCmp_neg, strCmp_nonpos_iff] at h1 h2 ⊢; exact le_trans h2 h1)

theorem compareIssues_zero_trans {f : SortField} {o : SortOrder} {a b c : Issue}
    (h1 : compareIssues a b f o = 0) (h2 : compareIssues b c f o = 0) :
    compareIssues a c f o = 0 := by
  cases f <;> cases o <;>
    simp only [compareIssues, neg_eq_zero] at h1 h2 ⊢ <;>
    first
      | omega
      | (rw [strCmp_eq_zero_iff] at h1 h2 ⊢; exact h1.trans h2)

/-- C7: sortIssues with a single-field comparator is idempotent (re-sorting an
already-sorted-by-the-same-key list is a no-op) and stable: for every issue a,
the subsequence of elements tied with a under the comparator is the same in
the sorted output as in the input, i.e. tied elements retain their prior
relative order. -/
theorem sortIssues_stable_idempotent (l : List Issue) (f : SortField) (o : SortOrder) :
    sortIssues (sortIssues l f o) f o = sortIssues l f o ∧
    ∀ a : Issue, (sortIssues l f o).filter (fun x => compareIssues x a f o == 0) =
      l.filter (fun x => compareIssues x a f o == 0) := by
  have htrans : ∀ (x y z : Issue),
      (fun a b => decide (compareIssues a b f o ≤ 0)) x y →
      (fun a b => decide (compareIssues a b f o ≤ 0)) y z →
      (fun a b => decide (compareIssues a b f o ≤ 0)) x z := by
    intro x y z h1 h2
    simp only [decide_eq_true_eq] at h1 h2 ⊢
    exact compareIssues_trans h1 h2
  have htotal : ∀ (x y : Issue),
      (fun a b => decide (compareIssues a b f o ≤ 0)) x y ||
      (fun a b => decide (compareIssues a b f o ≤ 0)) y x := by
    intro x y
    rcases compareIssues_le_total x y f o with h | h <;> simp [h]
  constructor
  · exact List.mergeSort_of_sorted (List.sorted_mergeSort htrans htotal l)
  · intro a
    have hmemp : ∀ x ∈ l.filter (fun x => compareIssues x a f o == 0),
        (compareIssues x a f o == 0) = true :=
      fun x hx => (List.mem_filter.1 hx).2
    have hpair : (l.filter (fun x => compareIssues x a f o == 0)).Pairwise
        (fun x y => (fun a b => decide (compareIssues a b f o ≤ 0)) x y) := by
      refine List.pairwise_of_forall_mem_list ?_
      intro x hx y hy
      have hx0 : compareIssues x a f o = 0 := by simpa using hmemp x hx
      have hy0 : compareIssues y a f o = 0 := by simpa using hmemp y hy
      have hya : compareIssues a y f o = 0 := by
        rw [compareIssues_neg, hy0, neg_zero]
      have : compareIssues x y f o = 0 := compareIssues_zero_trans hx0 hya
      simp [this]
    have h1 : List.Sublist (l.filter (fun x => compareIssues x a f o == 0))
        (sortIssues l f o) :=
      List.sublist_mergeSort htrans htotal hpair (List.filter_sublist l)
    have h2 : List.Sublist (l.filter (fun x => compareIssues x a f o == 0))
        ((sortIssues l f o).filter (fun x => compareIssues x a f o == 0)) := by
      have hff : (l.filter (fun x => compareIssues x a f o == 0)).filter
          (fun x => compareIssues x a f o == 0) =
          l.filter (fun x => compareIssues x a f o == 0) :=
        List.filter_eq_self.2 hmemp
      have := h1.filter (fun x => compareIssues x a f o == 0)
      rwa [hff] at this
    have hlen : ((sortIssues l f o).filter (fun x => compareIssues x a f o == 0)).length =
        (l.filter (fun x => compareIssues x a f o == 0)).length := by
      rw [← List.countP_eq_length_filter, ← List.countP_eq_length_filter]
      exact (List.mergeSort_perm l _).countP_eq _
    exact (h2.eq_of_length hlen.symm).symm

/-! ### C5: jumpToPage clamping -/

theorem setColumn_same (cs : Status → ColumnState) (k : Status) (v : ColumnState) :
    setColumn cs k v k = v := by
  simp [setColumn]

theorem setColumn_other (cs : Status → ColumnState) (k : Status) (v : ColumnState)
    {j : Status} (h : j ≠ k) : setColumn cs k v j = cs j := by
  simp [setColumn, h]

theorem totalPagesOf_bounds (len ipp : Int) (hlen : 0 ≤ len) (hipp : 1 ≤ ipp) :
    1 ≤ totalPagesOf len ipp ∧
    (len = 0 → totalPagesOf len ipp = 1) ∧
    (1 ≤ len → (totalPagesOf len ipp - 1) * ipp < len ∧ len ≤ totalPagesOf len ipp * ipp) := by
  have h1 : ipp * ((-len).ediv ipp) + (-len).emod ipp = -len := Int.ediv_add_emod _ _
  have h2 : 0 ≤ (-len).emod ipp := Int.emod_nonneg _ (by omega)
  have h3 : (-len).emod ipp < ipp := Int.emod_lt_of_pos _ (by omega)
  simp only [totalPagesOf, ceilDivInt]
  set q := (-len).ediv ipp with hq
  have key1 : len ≤ (-q) * ipp := by nlinarith [h1, h2]
  have key2 : (-q) * ipp - ipp < len := by nlinarith [h1, h3]
  have hqnn : 0 ≤ -q := by
    by_contra hc
    push_neg at hc
    nlinarith [key1]
  have ht0 : len = 0 → -q = 0 := by
    intro h
    have : q = 0 := by
      rw [hq, h, neg_zero]
      exact Int.zero_ediv ipp
    omega
  have ht1 : 1 ≤ len → 1 ≤ -q := by
    intro h
    by_contra hc
    push_neg at hc
    have hq0 : -q = 0 := by omega
    nlinarith [key1]
  refine ⟨?_, ?_, ?_⟩
  · by_cases h0 : -q = 0
    · simp [h0]
    · simp only [beq_iff_eq, h0, ite_false]
      omega
  · intro h
    simp [ht0 h]
  · intro h
    have h1q : 1 ≤ -q := ht1 h
    have hne : ¬(-q = 0) := by omega
    simp only [beq_iff_eq, hne, ite_false]
    constructor
    · nlinarith [key2]
    · exact key1

/-- C5: for every integer n, jumpToPage n clamps n to [1, totalPages], where
totalPages is the ceiling of bucket length over page size with minimum 1
(characterised by its bounds); the scroll offset becomes
(clampedPage - 1) * pageSize; for a non-empty bucket the issue at that offset
is selected, and for an empty bucket totalPages = 1 and the selection becomes
null. -/
theorem jumpToPage_clamps (st : StoreState) (n : Int) (hipp : 1 ≤ st.itemsPerPage) :
    ∃ p : Int,
      1 ≤ p ∧ p ≤ getTotalPages st ∧
      (n < 1 → p = 1) ∧
      (getTotalPages st < n → p = getTotalPages st) ∧
      (1 ≤ n → n ≤ getTotalPages st → p = n) ∧
      ((st.sortedByStatus (statusKeyOf st.selectedColumn)).length = 0 →
        getTotalPages st = 1) ∧
      (1 ≤ (st.sortedByStatus (statusKeyOf st.selectedColumn)).length →
        (getTotalPages st - 1) * st.itemsPerPage <
          ((st.sortedByStatus (statusKeyOf st.selectedColumn)).length : Int) ∧
        ((st.sortedByStatus (statusKeyOf st.selectedColumn)).length : Int) ≤
          getTotalPages st * st.itemsPerPage) ∧
      ((jumpToPage st n).columnStates (statusKeyOf st.selectedColumn)).scrollOffset =
        (p - 1) * st.itemsPerPage ∧
      (st.sortedByStatus (statusKeyOf st.selectedColumn) = [] →
        ((jumpToPage st n).columnStates (statusKeyOf st.selectedColumn)).selectedIssueId =
          none) ∧
      (st.sortedByStatus (statusKeyOf st.selectedColumn) ≠ [] →
        ∃ iss, (st.sortedByStatus
            (statusKeyOf st.selectedColumn))[((p - 1) * st.itemsPerPage).toNat]? =
              some iss ∧
          ((jumpToPage st n).columnStates (statusKeyOf st.selectedColumn)).selectedIssueId =
            some iss.id) := by
  have hlen : (0 : Int) ≤ ((st.sortedByStatus (statusKeyOf st.selectedColumn)).length : Int) :=
    Int.ofNat_nonneg _
  obtain ⟨htp1, htp0, htpb⟩ :=
    totalPagesOf_bounds ((st.sortedByStatus (statusKeyOf st.selectedColumn)).length : Int)
      st.itemsPerPage hlen hipp
  have hgtp : getTotalPages st =
      totalPagesOf ((st.sortedByStatus (statusKeyOf st.selectedColumn)).length : Int)
        st.itemsPerPage := rfl
  refine ⟨max 1 (min n (getTotalPages st)), le_max_left _ _, ?_, ?_, ?_, ?_, ?_, ?_, ?_, ?_, ?_⟩
  · rw [hgtp]
    omega
  · intro h
    rw [hgtp]
    omega
  · intro h
    rw [hgtp]
    omega
  · intro h1 h2
    rw [hgtp]
    omega
  · intro h
    rw [hgtp]
    exact htp0 (by omega)
  · intro h
    rw [hgtp]
    exact htpb (by omega)
  · simp only [jumpToPage, setColumn_same, hgtp]
  · intro hnil
    simp only [jumpToPage, setColumn_same]
    unfold idAtInt
    split
    · rename_i hcond
      rw [hnil] at hcond
      simp only [List.length_nil, Nat.cast_zero] at hcond
      omega
    · rfl
  · intro hne
    have hlen1 : 1 ≤ (st.sortedByStatus (statusKeyOf st.selectedColumn)).length := by
      cases hl : st.sortedByStatus (statusKeyOf st.selectedColumn) with
      | nil => exact absurd hl hne
      | cons a l => simp [hl]
    obtain ⟨hb1, hb2⟩ := htpb (by omega)
    set p := max 1 (min n (getTotalPages st)) with hp
    have hple : p ≤ getTotalPages st := by
      rw [hp, hgtp]
      omega
    have hoff0 : 0 ≤ (p - 1) * st.itemsPerPage := by
      have : 1 ≤ p := le_max_left _ _
      nlinarith
    have hofflt : (p - 1) * st.itemsPerPage <
        ((st.sortedByStatus (statusKeyOf st.selectedColumn)).length : Int) := by
      have hmul : (p - 1) * st.itemsPerPage ≤ (getTotalPages st - 1) * st.itemsPerPage := by
        nlinarith
      rw [hgtp] at hmul
      omega
    have hidx : min ((p - 1) * st.itemsPerPage)
        (((st.sortedByStatus (statusKeyOf st.selectedColumn)).length : Int) - 1) =
        (p - 1) * st.itemsPerPage := by
      omega
    have hnat : ((p - 1) * st.itemsPerPage).toNat <
        (st.sortedByStatus (statusKeyOf st.selectedColumn)).length := by
      omega
    refine ⟨(st.sortedByStatus (statusKeyOf st.selectedColumn)).get
      ⟨((p - 1) * st.itemsPerPage).toNat, hnat⟩, ?_, ?_⟩
    · exact List.getElem?_eq_getElem hnat
    · simp only [jumpToPage, setColumn_same, ← hgtp, ← hp, hidx]
      unfold idAtInt
      rw [if_pos ⟨hoff0, by omega⟩]
      rw [List.getElem?_eq_getElem hnat]
      rfl

/-- Witness for C5 at a concrete store (three open issues, page size 2,
total pages 2) and the out-of-range request 99: the page clamps to 2, the
offset becomes 2 and the issue at the offset is selected. -/
theorem jumpToPage_clamps_witness :
    ((jumpToPage exStore 99).columnStates Status.open_).scrollOffset = 2 ∧
    ((jumpToPage exStore 99).columnStates Status.open_).selectedIssueId = some "i3" := by
  obtain ⟨p, h1, h2, h3, h4, h5, h6, h7, h8, h9, h10⟩ :=
    jumpToPage_clamps exStore 99 (by decide)
  have htp : getTotalPages exStore = 2 := by decide
  have hp : p = 2 := by
    rw [htp] at h4
    exact h4 (by omega)
  constructor
  · rw [hp] at h8
    exact h8.trans (by decide)
  · obtain ⟨iss, hiss, hsel⟩ := h10 (by decide)
    have hx : (exStore.sortedByStatus
        (statusKeyOf exStore.selectedColumn))[(((p : Int) - 1) *
          exStore.itemsPerPage).toNat]? = some exI3 := by
      rw [hp]
      decide
    rw [hx] at hiss
    cases hiss
    exact hsel

/-! ### C6: moveUp and moveDown -/

theorem jsFindIndex_eq_of_nodup {l : List Issue} (hn : (l.map Issue.id).Nodup)
    {idx : Nat} {a : Issue} (ha : l[idx]? = some a) :
    jsFindIndex (fun i => (some a.id : Option String) == some i.id) l = (idx : Int) := by
  suffices h : l.findIdx? (fun i => (some a.id : Option String) == some i.id) = some idx by
    simp only [jsFindIndex]
    rw [h]
  induction l generalizing idx with
  | nil => simp at ha
  | cons b t ih =>
    simp only [List.map_cons, List.nodup_cons, List.mem_map] at hn
    rcases idx with _ | n
    · have hb : b = a := by simpa using ha
      subst hb
      simp [List.findIdx?_cons]
    · have hat : t[n]? = some a := by simpa using ha
      have hmem : a ∈ t := List.getElem?_mem hat
      have hbne : (a.id == b.id) = false :=
        beq_eq_false_iff_ne.2 fun he => hn.1 ⟨a, hmem, he⟩
      rw [List.findIdx?_cons]
      have hpb : ((some a.id : Option String) == some b.id) = false := by
        rw [Option.some_beq_some]
        exact hbne
      rw [hpb]
      simp only [Bool.false_eq_true, ite_false]
      rw [List.findIdx?_succ, ih hn.2 hat]
      rfl

/-- C6: on an empty bucket, moveUp and moveDown are no-ops (so the selection
stays whatever it was, in particular null); when the selection is found at
index idx of the bucket's currently sorted list (ids duplicate-free), moveUp
is a no-op at idx = 0 and otherwise selects the issue at idx - 1, pulling the
scroll offset up to idx - 1 exactly when idx - 1 is above the window; moveDown
is a no-op at the last index and otherwise selects the issue at idx + 1,
pushing the scroll offset to idx + 1 - pageSize + 1 exactly when idx + 1
falls below the window [scrollOffset, scrollOffset + pageSize). -/
theorem moveUpDown_spec (st : StoreState)
    (hnodup : ((st.sortedByStatus (statusKeyOf st.selectedColumn)).map Issue.id).Nodup) :
    (st.sortedByStatus (statusKeyOf st.selectedColumn) = [] →
      moveUp st = st ∧ moveDown st = st) ∧
    (∀ (idx : Nat) (a : Issue),
      (st.sortedByStatus (statusKeyOf st.selectedColumn))[idx]? = some a →
      (st.columnStates (statusKeyOf st.selectedColumn)).selectedIssueId = some a.id →
      ((idx = 0 → moveUp st = st) ∧
       (∀ j : Nat, idx = j + 1 →
         ∃ b, (st.sortedByStatus (statusKeyOf st.selectedColumn))[j]? = some b ∧
           (moveUp st).columnStates (statusKeyOf st.selectedColumn) =
             ⟨some b.id,
              if (j : Int) < (st.columnStates (statusKeyOf st.selectedColumn)).scrollOffset
              then (j : Int)
              else (st.columnStates (statusKeyOf st.selectedColumn)).scrollOffset⟩) ∧
       (idx = (st.sortedByStatus (statusKeyOf st.selectedColumn)).length - 1 →
         moveDown st = st) ∧
       (idx + 1 < (st.sortedByStatus (statusKeyOf st.selectedColumn)).length →
         ∃ b, (st.sortedByStatus (statusKeyOf st.selectedColumn))[idx + 1]? = some b ∧
           (moveDown st).columnStates (statusKeyOf st.selectedColumn) =
             ⟨some b.id,
              if (st.columnStates (statusKeyOf st.selectedColumn)).scrollOffset +
                  st.itemsPerPage ≤ (idx : Int) + 1
              then (idx : Int) + 1 - st.itemsPerPage + 1
              else (st.columnStates (statusKeyOf st.selectedColumn)).scrollOffset⟩))) := by
  constructor
  · intro hnil
    constructor
    · simp only [moveUp, hnil]
      norm_num [jsFindIndex]
    · simp only [moveDown, hnil]
      norm_num [jsFindIndex]
  · intro idx a ha hsel
    have hidx : jsFindIndex
        (fun i => (st.columnStates (statusKeyOf st.selectedColumn)).selectedIssueId ==
          some i.id)
        (st.sortedByStatus (statusKeyOf st.selectedColumn)) = (idx : Int) := by
      rw [hsel]
      exact jsFindIndex_eq_of_nodup hnodup ha
    have hlt : idx < (st.sortedByStatus (statusKeyOf st.selectedColumn)).length := by
      by_contra hc
      push_neg at hc
      rw [List.getElem?_eq_none hc] at ha
      cases ha
    refine ⟨?_, ?_, ?_, ?_⟩
    · intro h0
      subst h0
      simp only [moveUp, hidx]
      norm_num
    · intro j hj
      subst hj
      have hjlt : j < (st.sortedByStatus (statusKeyOf st.selectedColumn)).length := by
        omega
      refine ⟨(st.sortedByStatus (statusKeyOf st.selectedColumn)).get ⟨j, hjlt⟩,
        List.getElem?_eq_getElem hjlt, ?_⟩
      have hcast : ((j + 1 : Nat) : Int) - 1 = (j : Int) := by push_cast; ring
      have hsel2 : idAtInt (st.sortedByStatus (statusKeyOf st.selectedColumn)) (j : Int) =
          some ((st.sortedByStatus (statusKeyOf st.selectedColumn)).get ⟨j, hjlt⟩).id := by
        unfold idAtInt
        rw [if_pos ⟨by omega, by exact_mod_cast hjlt⟩]
        rw [show ((j : Int).toNat) = j from by omega]
        rw [List.getElem?_eq_getElem hjlt]
        rfl
      simp only [moveUp, hidx]
      rw [if_pos (by omega : ((j + 1 : Nat) : Int) > 0), hcast, hsel2]
      simp [setColumn_same]
    · intro hlast
      simp only [moveDown, hidx]
      rw [if_neg (by omega :
        ¬((idx : Int) < ((st.sortedByStatus (statusKeyOf st.selectedColumn)).length : Int) - 1))]
    · intro hnextlt
      refine ⟨(st.sortedByStatus (statusKeyOf st.selectedColumn)).get ⟨idx + 1, hnextlt⟩,
        List.getElem?_eq_getElem hnextlt, ?_⟩
      have hcast : (idx : Int) + 1 = ((idx + 1 : Nat) : Int) := by push_cast; ring
      have hsel2 : idAtInt (st.sortedByStatus (statusKeyOf st.selectedColumn))
          ((idx : Int) + 1) =
          some ((st.sortedByStatus (statusKeyOf st.selectedColumn)).get ⟨idx + 1, hnextlt⟩).id := by
        unfold idAtInt
        rw [if_pos ⟨by omega, by rw [hcast]; exact_mod_cast hnextlt⟩]
        rw [show (((idx : Int) + 1).toNat) = idx + 1 from by omega]
        rw [List.getElem?_eq_getElem hnextlt]
        rfl
      simp only [moveDown, hidx]
      rw [if_pos (by omega :
        (idx : Int) < ((st.sortedByStatus (statusKeyOf st.selectedColumn)).length : Int) - 1)]
      rw [hsel2]
      simp [setColumn_same]

/-- Witness for C6 at a concrete store: the second of three issues is
selected; moveDown selects the third and moveUp selects the first. -/
theorem moveUpDown_spec_witness :
    ((moveDown exStore).columnStates Status.open_).selectedIssueId = some "i3" ∧
    ((moveUp exStore).columnStates Status.open_).selectedIssueId = some "i1" := by
  obtain ⟨hempty, hmain⟩ := moveUpDown_spec exStore (by decide)
  obtain ⟨hup0, hupS, hdownL, hdownS⟩ := hmain 1 exI2 (by decide) (by decide)
  constructor
  · obtain ⟨b, hb, hcs⟩ := hdownS (by decide)
    have hb2 : b = exI3 := by
      rw [show (exStore.sortedByStatus (statusKeyOf exStore.selectedColumn))[1 + 1]? =
        some exI3 from by decide] at hb
      cases hb
      rfl
    show ((moveDown exStore).columnStates
      (statusKeyOf exStore.selectedColumn)).selectedIssueId = some "i3"
    rw [hcs, hb2]
    rfl
  · obtain ⟨b, hb, hcs⟩ := hupS 0 rfl
    have hb2 : b = exI1 := by
      rw [show (exStore.sortedByStatus (statusKeyOf exStore.selectedColumn))[0]? =
        some exI1 from by decide] at hb
      cases hb
      rfl
    show ((moveUp exStore).columnStates
      (statusKeyOf exStore.selectedColumn)).selectedIssueId = some "i1"
    rw [hcs, hb2]
    rfl

/-! ### C10: navigation frame property -/

/-- C10: each of moveUp, moveDown, jumpToFirst, jumpToLast and jumpToPage
modifies at most the currently selected column's (selectedIssueId,
scrollOffset) pair, leaving the other three columns' states, selectedColumn,
sortConfig, sortedByStatus, itemsPerPage, previousIssues and the dataset
unchanged; the first four also leave the jump-to-page overlay flag unchanged,
while jumpToPage clears it. -/
theorem navigation_frame (st : StoreState) (n : Int) :
    (framePreserved st (moveUp st) ∧ (moveUp st).showJumpToPage = st.showJumpToPage) ∧
    (framePreserved st (moveDown st) ∧ (moveDown st).showJumpToPage = st.showJumpToPage) ∧
    (framePreserved st (jumpToFirst st) ∧
      (jumpToFirst st).showJumpToPage = st.showJumpToPage) ∧
    (framePreserved st (jumpToLast st) ∧
      (jumpToLast st).showJumpToPage = st.showJumpToPage) ∧
    (framePreserved st (jumpToPage st n) ∧ (jumpToPage st n).showJumpToPage = false) := by
  have hself : framePreserved st st :=
    ⟨rfl, rfl, rfl, rfl, rfl, rfl, fun _ _ => rfl⟩
  have hset : ∀ v : ColumnState,
      framePreserved st
        { st with columnStates := setColumn st.columnStates (statusKeyOf st.selectedColumn) v } := by
    intro v
    exact ⟨rfl, rfl, rfl, rfl, rfl, rfl, fun k hk => setColumn_other _ _ _ hk⟩
  have hset2 : ∀ v : ColumnState,
      framePreserved st
        { st with
          columnStates := setColumn st.columnStates (statusKeyOf st.selectedColumn) v
          showJumpToPage := false } := by
    intro v
    exact ⟨rfl, rfl, rfl, rfl, rfl, rfl, fun k hk => setColumn_other _ _ _ hk⟩
  refine ⟨⟨?_, ?_⟩, ⟨?_, ?_⟩, ⟨?_, ?_⟩, ⟨?_, ?_⟩, ⟨?_, ?_⟩⟩
  · simp only [moveUp]
    split
    · exact hset _
    · exact hself
  · simp only [moveUp]
    split <;> rfl
  · simp only [moveDown]
    split
    · exact hset _
    · exact hself
  · simp only [moveDown]
    split <;> rfl
  · exact hset _
  · rfl
  · exact hset _
  · rfl
  · exact hset2 _
  · rfl

/-! ### C1: selection stability under reload -/

/-- C1: for every bucket and every new dataset, setData preserves the bucket's
selectedIssueId whenever that id still occurs anywhere in the bucket's new
(re-sorted) contents, leaving its scrollOffset untouched (the whole column
state is unchanged); when the id is absent, or no id was selected, the bucket
state is reset to the first element of the sorted bucket (or null when the
bucket is empty) with scrollOffset 0. -/
theorem setData_selection_stability (st : StoreState) (data : Dataset) (s : Status) :
    (∀ sel, (st.columnStates s).selectedIssueId = some sel →
      sel ∈ (data.byStatus s).map Issue.id →
      (setData st data).columnStates s = st.columnStates s) ∧
    (∀ sel, (st.columnStates s).selectedIssueId = some sel →
      sel ∉ (data.byStatus s).map Issue.id →
      (setData st data).columnStates s =
        ⟨((computeSortedByStatus data st.sortConfig s).head?).map Issue.id, 0⟩) ∧
    ((st.columnStates s).selectedIssueId = none →
      (setData st data).columnStates s =
        ⟨((computeSortedByStatus data st.sortConfig s).head?).map Issue.id, 0⟩) ∧
    (data.byStatus s = [] →
      (setData st data).columnStates s = ⟨none, 0⟩) := by
  have hrw : (setData st data).columnStates s =
      validateColumn (computeSortedByStatus data st.sortConfig s) (st.columnStates s) := rfl
  have hperm : ∀ x : Issue,
      x ∈ computeSortedByStatus data st.sortConfig s ↔ x ∈ data.byStatus s := by
    intro x
    exact (List.mergeSort_perm (data.byStatus s) _).mem_iff
  refine ⟨?_, ?_, ?_, ?_⟩
  · intro sel hsel hmem
    rcases List.mem_map.1 hmem with ⟨x, hx, hxid⟩
    have hsome : ((computeSortedByStatus data st.sortConfig s).find?
        (fun i => i.id == sel)).isSome :=
      List.find?_isSome.2 ⟨x, (hperm x).2 hx, by simp [hxid]⟩
    rcases Option.isSome_iff_exists.1 hsome with ⟨y, hy⟩
    rw [hrw]
    unfold validateColumn
    rw [hsel]
    dsimp only
    rw [hy]
    rfl
  · intro sel hsel hmem
    have hnone : (computeSortedByStatus data st.sortConfig s).find?
        (fun i => i.id == sel) = none := by
      rw [List.find?_eq_none]
      intro x hx hid
      exact hmem (List.mem_map.2 ⟨x, (hperm x).1 hx, by simpa using hid⟩)
    rw [hrw]
    unfold validateColumn
    rw [hsel]
    dsimp only
    rw [hnone]
    rfl
  · intro hnone
    rw [hrw]
    unfold validateColumn
    rw [hnone]
  · intro hnil
    have hsorted : computeSortedByStatus data st.sortConfig s = [] := by
      unfold computeSortedByStatus sortIssues
      rw [hnil]
      exact List.mergeSort_nil
    rw [hrw, hsorted]
    unfold validateColumn
    cases hs : (st.columnStates s).selectedIssueId <;> rfl

/-- Witness for C1 at a concrete store: a reload containing the selected id
i2 keeps the column state; a reload without i2 resets the column to the first
sorted element with offset 0. -/
theorem setData_selection_stability_witness :
    (setData exStore exData).columnStates Status.open_ =
      exStore.columnStates Status.open_ ∧
    (setData exStore exDataSmall).columnStates Status.open_ = ⟨some "i1", 0⟩ := by
  obtain ⟨hkeep, _, _, _⟩ := setData_selection_stability exStore exData Status.open_
  obtain ⟨_, hreset, _, _⟩ := setData_selection_stability exStore exDataSmall Status.open_
  constructor
  · exact hkeep "i2" (by decide) (by decide)
  · have hsorted : computeSortedByStatus exDataSmall exStore.sortConfig Status.open_ =
        [exI1, exI3] := by
      unfold computeSortedByStatus sortIssues
      exact List.mergeSort_of_sorted (by decide)
    rw [hreset "i2" (by decide) (by decide), hsorted]
    rfl

/-! ### Resolution-pass lemmas shared by C2 and C3 -/

theorem byIdFind_map {issues : List Issue} {g : Issue → Issue}
    (hid : ∀ i, (g i).id = i.id) (k : String) :
    byIdFind (issues.map g) k = (byIdFind issues k).map g := by
  unfold byIdFind
  have hfun : ((fun i : Issue => i.id == k) ∘ g) = (fun i : Issue => i.id == k) := by
    funext i
    simp [Function.comp, hid]
  rw [List.find?_map, hfun]

theorem byIdFind_of_mem_nodup {l : List Issue} (hn : (l.map Issue.id).Nodup)
    {a : Issue} (ha : a ∈ l) : byIdFind l a.id = some a := by
  induction l with
  | nil => cases ha
  | cons b t ih =>
    simp only [List.map_cons, List.nodup_cons, List.mem_map] at hn
    rcases List.mem_cons.1 ha with rfl | ha
    · simp [byIdFind]
    · have hne : (b.id == a.id) = false :=
        beq_eq_false_iff_ne.2 fun he => hn.1 ⟨a, ha, he.symm⟩
      unfold byIdFind
      rw [List.find?_cons]
      rw [show (b.id == a.id) = false from hne]
      exact ih hn.2 ha

theorem applyDep_parent_child_fields (d : Dep) (i : Issue) :
    ((let i1 := if i.id == d.issue_id then { i with parent := some d.depends_on_id } else i
      if i1.id == d.depends_on_id then
        { i1 with children := i1.children ++ [d.issue_id] } else i1) : Issue).id = i.id ∧
    ((let i1 := if i.id == d.issue_id then { i with parent := some d.depends_on_id } else i
      if i1.id == d.depends_on_id then
        { i1 with children := i1.children ++ [d.issue_id] } else i1) : Issue).status =
      i.status ∧
    ((let i1 := if i.id == d.issue_id then { i with parent := some d.depends_on_id } else i
      if i1.id == d.depends_on_id then
        { i1 with children := i1.children ++ [d.issue_id] } else i1) : Issue).blockedBy =
      i.blockedBy ∧
    ((let i1 := if i.id == d.issue_id then { i with parent := some d.depends_on_id } else i
      if i1.id == d.depends_on_id then
        { i1 with children := i1.children ++ [d.issue_id] } else i1) : Issue).blocks =
      i.blocks := by
  dsimp only
  split <;> split <;> exact ⟨rfl, rfl, rfl, rfl⟩

theorem applyDep_blocks_fields (d : Dep) (i : Issue) :
    ((let i1 := if i.id == d.issue_id then
        { i with blockedBy := i.blockedBy ++ [d.depends_on_id] } else i
      if i1.id == d.depends_on_id then
        { i1 with blocks := i1.blocks ++ [d.issue_id] } else i1) : Issue).id = i.id ∧
    ((let i1 := if i.id == d.issue_id then
        { i with blockedBy := i.blockedBy ++ [d.depends_on_id] } else i
      if i1.id == d.depends_on_id then
        { i1 with blocks := i1.blocks ++ [d.issue_id] } else i1) : Issue).status = i.status ∧
    (((let i1 := if i.id == d.issue_id then
        { i with blockedBy := i.blockedBy ++ [d.depends_on_id] } else i
      if i1.id == d.depends_on_id then
        { i1 with blocks := i1.blocks ++ [d.issue_id] } else i1) : Issue).blockedBy =
        i.blockedBy ++ [d.depends_on_id] ∨
     ((let i1 := if i.id == d.issue_id then
        { i with blockedBy := i.blockedBy ++ [d.depends_on_id] } else i
      if i1.id == d.depends_on_id then
        { i1 with blocks := i1.blocks ++ [d.issue_id] } else i1) : Issue).blockedBy =
        i.blockedBy) ∧
    (((let i1 := if i.id == d.issue_id then
        { i with blockedBy := i.blockedBy ++ [d.depends_on_id] } else i
      if i1.id == d.depends_on_id then
        { i1 with blocks := i1.blocks ++ [d.issue_id] } else i1) : Issue).blocks =
        i.blocks ++ [d.issue_id] ∨
     ((let i1 := if i.id == d.issue_id then
        { i with blockedBy := i.blockedBy ++ [d.depends_on_id] } else i
      if i1.id == d.depends_on_id then
        { i1 with blocks := i1.blocks ++ [d.issue_id] } else i1) : Issue).blocks =
        i.blocks) := by
  dsimp only
  split <;> split <;>
    · refine ⟨rfl, rfl, ?_, ?_⟩ <;> first | exact Or.inl rfl | exact Or.inr rfl

theorem applyDep_find (issues : List Issue) (d : Dep) (k : String) :
    ((byIdFind (applyDep issues d) k).map Issue.id = (byIdFind issues k).map Issue.id) ∧
    ((byIdFind (applyDep issues d) k).map Issue.status =
      (byIdFind issues k).map Issue.status) ∧
    (∃ t, ((byIdFind (applyDep issues d) k).map Issue.blockedBy).getD [] =
      ((byIdFind issues k).map Issue.blockedBy).getD [] ++ t) ∧
    (∃ t, ((byIdFind (applyDep issues d) k).map Issue.blocks).getD [] =
      ((byIdFind issues k).map Issue.blocks).getD [] ++ t) := by
  unfold applyDep
  cases byIdFind issues d.issue_id with
  | none => exact ⟨rfl, rfl, ⟨[], by simp⟩, ⟨[], by simp⟩⟩
  | some w =>
    by_cases hpc : (d.type == "parent-child") = true
    · rw [hpc]
      simp only [ite_true]
      rw [byIdFind_map (fun i => (applyDep_parent_child_fields d i).1) k]
      cases hfind : byIdFind issues k with
      | none => exact ⟨rfl, rfl, ⟨[], by simp⟩, ⟨[], by simp⟩⟩
      | some y =>
        obtain ⟨h1, h2, h3, h4⟩ := applyDep_parent_child_fields d y
        dsimp only [Option.map, Option.getD]
        refine ⟨by rw [h1], by rw [h2], ⟨[], by rw [h3]; simp⟩, ⟨[], by rw [h4]; simp⟩⟩
    · rw [show (d.type == "parent-child") = false from by simpa using hpc]
      simp only [Bool.false_eq_true, ite_false]
      by_cases hbl : (d.type == "blocks") = true
      · rw [hbl]
        simp only [ite_true]
        rw [byIdFind_map (fun i => (applyDep_blocks_fields d i).1) k]
        cases hfind : byIdFind issues k with
        | none => exact ⟨rfl, rfl, ⟨[], by simp⟩, ⟨[], by simp⟩⟩
        | some y =>
          obtain ⟨h1, h2, h3, h4⟩ := applyDep_blocks_fields d y
          dsimp only [Option.map, Option.getD]
          refine ⟨by rw [h1], by rw [h2], ?_, ?_⟩
          · rcases h3 with h3 | h3
            · exact ⟨[d.depends_on_id], by rw [h3]⟩
            · exact ⟨[], by rw [h3]; simp⟩
          · rcases h4 with h4 | h4
            · exact ⟨[d.issue_id], by rw [h4]⟩
            · exact ⟨[], by rw [h4]; simp⟩
      · rw [show (d.type == "blocks") = false from by simpa using hbl]
        simp only [Bool.false_eq_true, ite_false]
        exact ⟨trivial, trivial, ⟨[], by simp⟩, ⟨[], by simp⟩⟩

theorem resolveDeps_find (issues : List Issue) (deps : List Dep) (k : String) :
    ((byIdFind (resolveDeps issues deps) k).map Issue.id =
      (byIdFind issues k).map Issue.id) ∧
    ((byIdFind (resolveDeps issues deps) k).map Issue.status =
      (byIdFind issues k).map Issue.status) ∧
    (∃ t, ((byIdFind (resolveDeps issues deps) k).map Issue.blockedBy).getD [] =
      ((byIdFind issues k).map Issue.blockedBy).getD [] ++ t) ∧
    (∃ t, ((byIdFind (resolveDeps issues deps) k).map Issue.blocks).getD [] =
      ((byIdFind issues k).map Issue.blocks).getD [] ++ t) := by
  induction deps generalizing issues with
  | nil => exact ⟨rfl, rfl, ⟨[], by simp [resolveDeps]⟩, ⟨[], by simp [resolveDeps]⟩⟩
  | cons d rest ih =>
    have hstep := applyDep_find issues d k
    have hrest := ih (applyDep issues d)
    have hfold : resolveDeps issues (d :: rest) = resolveDeps (applyDep issues d) rest := by
      unfold resolveDeps
      rw [List.foldl_cons]
    rw [hfold]
    obtain ⟨h1, h2, ⟨t1, h3⟩, ⟨t2, h4⟩⟩ := hstep
    obtain ⟨g1, g2, ⟨s1, g3⟩, ⟨s2, g4⟩⟩ := hrest
    refine ⟨g1.trans h1, g2.trans h2, ⟨t1 ++ s1, ?_⟩, ⟨t2 ++ s2, ?_⟩⟩
    · rw [g3, h3, List.append_assoc]
    · rw [g4, h4, List.append_assoc]

theorem applyDep_blocks_hit1 (issues : List Issue) (d : Dep) (htype : d.type = "blocks")
    {w : Issue} (hw : byIdFind issues d.issue_id = some w) :
    ∃ y, byIdFind (applyDep issues d) d.issue_id = some y ∧
      d.depends_on_id ∈ y.blockedBy := by
  have hw' : List.find? (fun i => i.id == d.issue_id) issues = some w := hw
  have hwid : (w.id == d.issue_id) = true := by
    have := List.find?_some hw'
    simpa using this
  unfold applyDep
  rw [hw]
  rw [show (d.type == "parent-child") = false from by simp [htype]]
  rw [show (d.type == "blocks") = true from by simp [htype]]
  simp only [Bool.false_eq_true, ite_false, ite_true]
  rw [byIdFind_map (fun i => (applyDep_blocks_fields d i).1) d.issue_id, hw]
  dsimp only [Option.map]
  refine ⟨_, rfl, ?_⟩
  dsimp only
  rw [if_pos hwid]
  split <;> simp

theorem applyDep_blocks_hit2 (issues : List Issue) (d : Dep) (htype : d.type = "blocks")
    {w w2 : Issue} (hw : byIdFind issues d.issue_id = some w)
    (hw2 : byIdFind issues d.depends_on_id = some w2) :
    ∃ y, byIdFind (applyDep issues d) d.depends_on_id = some y ∧
      d.issue_id ∈ y.blocks := by
  have hw2' : List.find? (fun i => i.id == d.depends_on_id) issues = some w2 := hw2
  have hw2id : (w2.id == d.depends_on_id) = true := by
    have := List.find?_some hw2'
    simpa using this
  unfold applyDep
  rw [hw]
  rw [show (d.type == "parent-child") = false from by simp [htype]]
  rw [show (d.type == "blocks") = true from by simp [htype]]
  simp only [Bool.false_eq_true, ite_false, ite_true]
  rw [byIdFind_map (fun i => (applyDep_blocks_fields d i).1) d.depends_on_id, hw2]
  dsimp only [Option.map]
  refine ⟨_, rfl, ?_⟩
  dsimp only
  split
  · simp [hw2id]
  · simp [hw2id]

theorem resolveDeps_blockedBy_mem {issues : List Issue} (deps : List Dep) {k x : String}
    {y : Issue} (hy : byIdFind issues k = some y) (hx : x ∈ y.blockedBy) :
    ∃ z, byIdFind (resolveDeps issues deps) k = some z ∧ x ∈ z.blockedBy := by
  obtain ⟨hid, _, ⟨t, hbb⟩, _⟩ := resolveDeps_find issues deps k
  rw [hy] at hid hbb
  cases hz : byIdFind (resolveDeps issues deps) k with
  | none =>
    rw [hz] at hid
    simp at hid
  | some z =>
    rw [hz] at hbb
    dsimp only [Option.map, Option.getD] at hbb
    refine ⟨z, rfl, ?_⟩
    rw [hbb]
    exact List.mem_append_left _ hx

theorem resolveDeps_blocks_mem {issues : List Issue} (deps : List Dep) {k x : String}
    {y : Issue} (hy : byIdFind issues k = some y) (hx : x ∈ y.blocks) :
    ∃ z, byIdFind (resolveDeps issues deps) k = some z ∧ x ∈ z.blocks := by
  obtain ⟨hid, _, _, ⟨t, hbl⟩⟩ := resolveDeps_find issues deps k
  rw [hy] at hid hbl
  cases hz : byIdFind (resolveDeps issues deps) k with
  | none =>
    rw [hz] at hid
    simp at hid
  | some z =>
    rw [hz] at hbl
    dsimp only [Option.map, Option.getD] at hbl
    refine ⟨z, rfl, ?_⟩
    rw [hbl]
    exact List.mem_append_left _ hx

theorem resolveDeps_id_status {issues : List Issue} (deps : List Dep) {k : String}
    {y : Issue} (hy : byIdFind issues k = some y) :
    ∃ z, byIdFind (resolveDeps issues deps) k = some z ∧ z.id = y.id ∧
      z.status = y.status := by
  obtain ⟨hid, hst, _, _⟩ := resolveDeps_find issues deps k
  rw [hy] at hid hst
  cases hz : byIdFind (resolveDeps issues deps) k with
  | none =>
    rw [hz] at hid
    simp at hid
  | some z =>
    rw [hz] at hid hst
    dsimp only [Option.map] at hid hst
    exact ⟨z, rfl, by simpa using hid, by simpa using hst⟩

theorem applyDep_map_fields (issues : List Issue) (d : Dep) :
    (applyDep issues d).map Issue.id = issues.map Issue.id ∧
    (applyDep issues d).map Issue.status = issues.map Issue.status := by
  unfold applyDep
  cases byIdFind issues d.issue_id with
  | none => exact ⟨rfl, rfl⟩
  | some w =>
    by_cases hpc : (d.type == "parent-child") = true
    · rw [hpc]
      simp only [ite_true]
      constructor
      · rw [List.map_map]
        refine List.map_congr_left fun a _ => ?_
        exact (applyDep_parent_child_fields d a).1
      · rw [List.map_map]
        refine List.map_congr_left fun a _ => ?_
        exact (applyDep_parent_child_fields d a).2.1
    · rw [show (d.type == "parent-child") = false from by simpa using hpc]
      simp only [Bool.false_eq_true, ite_false]
      by_cases hbl : (d.type == "blocks") = true
      · rw [hbl]
        simp only [ite_true]
        constructor
        · rw [List.map_map]
          refine List.map_congr_left fun a _ => ?_
          exact (applyDep_blocks_fields d a).1
        · rw [List.map_map]
          refine List.map_congr_left fun a _ => ?_
          exact (applyDep_blocks_fields d a).2.1
      · rw [show (d.type == "blocks") = false from by simpa using hbl]
        simp only [Bool.false_eq_true, ite_false]
        exact ⟨trivial, trivial⟩

theorem resolveDeps_map_fields (issues : List Issue) (deps : List Dep) :
    (resolveDeps issues deps).map Issue.id = issues.map Issue.id ∧
    (resolveDeps issues deps).map Issue.status = issues.map Issue.status := by
  induction deps generalizing issues with
  | nil => exact ⟨rfl, rfl⟩
  | cons d rest ih =>
    have hfold : resolveDeps issues (d :: rest) = resolveDeps (applyDep issues d) rest := by
      unfold resolveDeps
      rw [List.foldl_cons]
    rw [hfold]
    obtain ⟨h1, h2⟩ := applyDep_map_fields issues d
    obtain ⟨g1, g2⟩ := ih (applyDep issues d)
    exact ⟨g1.trans h1, g2.trans h2⟩

theorem loadDataset_map_fields (raw : List Issue) (deps : List Dep) :
    (loadDataset raw deps).issues.map Issue.id = raw.map Issue.id ∧
    (loadDataset raw deps).issues.map Issue.status = raw.map Issue.status := by
  obtain ⟨h1, h2⟩ := resolveDeps_map_fields raw deps
  constructor
  · show ((resolveDeps raw deps).map (finalizeIssue (resolveDeps raw deps))).map Issue.id =
      raw.map Issue.id
    rw [List.map_map]
    exact (List.map_congr_left fun a _ => rfl).trans h1
  · show ((resolveDeps raw deps).map
      (finalizeIssue (resolveDeps raw deps))).map Issue.status = raw.map Issue.status
    rw [List.map_map]
    exact (List.map_congr_left fun a _ => rfl).trans h2

/-! ### C2: blocker symmetry -/

/-- Counterexample to C2 as stated: load two issues where the closed issue a
blocks the open issue b.  After the load, a's blocks list contains b but b's
blockedBy list does not contain a (the closed blocker was filtered out), so
the claimed equivalence is false. -/
theorem loadDataset_blocks_symmetry_cex :
    ¬ (("a" ∈ ((byIdFind (loadDataset [cexBlockerA, cexBlockedB] cexDeps).issues
          "b").map Issue.blockedBy).getD []) ↔
       ("b" ∈ ((byIdFind (loadDataset [cexBlockerA, cexBlockedB] cexDeps).issues
          "a").map Issue.blocks).getD [])) := by
  decide

/-- C2 (amended): after a load, for issues A and B present in the dataset
(duplicate-free ids) with a blocks edge from A to B, A's blocks list always
contains B, while B's blockedBy list contains A exactly when A's status is not
closed; the claimed two-sided containment equivalence therefore holds
precisely for edges whose blocker is not closed, the closed-blocker side
being removed by the blockedBy filter. -/
theorem loadDataset_blocks_symmetry (raw : List Issue) (deps : List Dep)
    (hnodup : (raw.map Issue.id).Nodup) (A B : Issue) (hA : A ∈ raw) (hB : B ∈ raw)
    (hedge : ({ issue_id := B.id, depends_on_id := A.id, type := "blocks" } : Dep) ∈ deps) :
    (∃ A2, byIdFind (loadDataset raw deps).issues A.id = some A2 ∧ B.id ∈ A2.blocks) ∧
    (∃ B2, byIdFind (loadDataset raw deps).issues B.id = some B2 ∧
      (A.id ∈ B2.blockedBy ↔ A.status ≠ Status.closed)) := by
  obtain ⟨l1, l2, rfl⟩ := List.append_of_mem hedge
  have hfa : byIdFind raw A.id = some A := byIdFind_of_mem_nodup hnodup hA
  have hfb : byIdFind raw B.id = some B := byIdFind_of_mem_nodup hnodup hB
  obtain ⟨A1, hA1, hA1id, hA1st⟩ := resolveDeps_id_status l1 hfa
  obtain ⟨B1, hB1, hB1id, hB1st⟩ := resolveDeps_id_status l1 hfb
  obtain ⟨yB, hyB, hyBmem⟩ :=
    applyDep_blocks_hit1 (resolveDeps raw l1)
      { issue_id := B.id, depends_on_id := A.id, type := "blocks" } rfl hB1
  obtain ⟨yA, hyA, hyAmem⟩ :=
    applyDep_blocks_hit2 (resolveDeps raw l1)
      { issue_id := B.id, depends_on_id := A.id, type := "blocks" } rfl hB1 hA1
  obtain ⟨zB, hzB, hzBmem⟩ := resolveDeps_blockedBy_mem l2 hyB hyBmem
  obtain ⟨zA, hzA, hzAmem⟩ := resolveDeps_blocks_mem l2 hyA hyAmem
  have hfold : resolveDeps raw (l1 ++
      ({ issue_id := B.id, depends_on_id := A.id, type := "blocks" } : Dep) :: l2) =
      resolveDeps (applyDep (resolveDeps raw l1)
        { issue_id := B.id, depends_on_id := A.id, type := "blocks" }) l2 := by
    unfold resolveDeps
    rw [List.foldl_append, List.foldl_cons]
  have hzA2 : byIdFind (resolveDeps raw (l1 ++
      ({ issue_id := B.id, depends_on_id := A.id, type := "blocks" } : Dep) :: l2)) A.id =
      some zA := by
    rw [hfold]
    exact hzA
  have hzB2 : byIdFind (resolveDeps raw (l1 ++
      ({ issue_id := B.id, depends_on_id := A.id, type := "blocks" } : Dep) :: l2)) B.id =
      some zB := by
    rw [hfold]
    exact hzB
  obtain ⟨zA3, hzA3, hzA3id, hzA3st⟩ := resolveDeps_id_status (l1 ++
    ({ issue_id := B.id, depends_on_id := A.id, type := "blocks" } : Dep) :: l2) hfa
  have hzAeq : zA3 = zA := by
    rw [hzA2] at hzA3
    cases hzA3
    rfl
  have hzAst : zA.status = A.status := by
    rw [← hzAeq]
    exact hzA3st
  have hfin : (loadDataset raw (l1 ++
      ({ issue_id := B.id, depends_on_id := A.id, type := "blocks" } : Dep) :: l2)).issues =
      (resolveDeps raw (l1 ++
        ({ issue_id := B.id, depends_on_id := A.id, type := "blocks" } : Dep) :: l2)).map
        (finalizeIssue (resolveDeps raw (l1 ++
          ({ issue_id := B.id, depends_on_id := A.id, type := "blocks" } : Dep) :: l2))) :=
    rfl
  constructor
  · refine ⟨finalizeIssue (resolveDeps raw (l1 ++
      ({ issue_id := B.id, depends_on_id := A.id, type := "blocks" } : Dep) :: l2)) zA,
      ?_, ?_⟩
    · rw [hfin, @byIdFind_map _ (finalizeIssue (resolveDeps raw (l1 ++
        ({ issue_id := B.id, depends_on_id := A.id, type := "blocks" } : Dep) :: l2)))
        (fun i => rfl) A.id, hzA2]
      rfl
    · exact hzAmem
  · refine ⟨finalizeIssue (resolveDeps raw (l1 ++
      ({ issue_id := B.id, depends_on_id := A.id, type := "blocks" } : Dep) :: l2)) zB,
      ?_, ?_⟩
    · rw [hfin, @byIdFind_map _ (finalizeIssue (resolveDeps raw (l1 ++
        ({ issue_id := B.id, depends_on_id := A.id, type := "blocks" } : Dep) :: l2)))
        (fun i => rfl) B.id, hzB2]
      rfl
    · show A.id ∈ zB.blockedBy.filter (blockerKept _) ↔ A.status ≠ Status.closed
      rw [List.mem_filter]
      unfold blockerKept
      rw [hzA2]
      constructor
      · intro ⟨_, hkept⟩
        rw [← hzAst]
        exact bne_iff_ne.1 hkept
      · intro hne
        refine ⟨hzBmem, ?_⟩
        rw [bne_iff_ne]
        rw [hzAst]
        exact hne

/-- Witness for the amended C2 at a concrete load: an open blocker x of an
open issue y appears in y's blockedBy and y appears in x's blocks. -/
theorem loadDataset_blocks_symmetry_witness :
    ("y" ∈ ((byIdFind (loadDataset [cexBlockedB, { id := "y", status := Status.open_ }]
        [{ issue_id := "y", depends_on_id := "b", type := "blocks" }]).issues
          "b").map Issue.blocks).getD []) ∧
    ("b" ∈ ((byIdFind (loadDataset [cexBlockedB, { id := "y", status := Status.open_ }]
        [{ issue_id := "y", depends_on_id := "b", type := "blocks" }]).issues
          "y").map Issue.blockedBy).getD []) := by
  obtain ⟨⟨A2, hA2, hA2mem⟩, ⟨B2, hB2, hB2iff⟩⟩ :=
    loadDataset_blocks_symmetry [cexBlockedB, { id := "y", status := Status.open_ }]
      [{ issue_id := "y", depends_on_id := "b", type := "blocks" }]
      (by decide) cexBlockedB { id := "y", status := Status.open_ }
      (by decide) (by decide) (by decide)
  constructor
  · rw [show (byIdFind (loadDataset [cexBlockedB, { id := "y", status := Status.open_ }]
        [{ issue_id := "y", depends_on_id := "b", type := "blocks" }]).issues "b") =
        some A2 from hA2]
    exact hA2mem
  · rw [show (byIdFind (loadDataset [cexBlockedB, { id := "y", status := Status.open_ }]
        [{ issue_id := "y", depends_on_id := "b", type := "blocks" }]).issues "y") =
        some B2 from hB2]
    exact hB2iff.2 (by decide)

/-! ### C3: effective-status derivation -/

/-- C3: after a load, raw statuses (and ids) are carried over unchanged from
the input — the bucketing rule never mutates the stored status; every entry of
every issue's blockedBy resolves to an issue of the dataset whose status is
not closed; an issue is placed in the blocked bucket exactly when its raw
status is open and its filtered blockedBy is non-empty or its raw status is
itself blocked, and any issue not hit by the derivation rule is placed in the
bucket of its raw status. -/
theorem loadDataset_effective_status (raw : List Issue) (deps : List Dep) :
    ((loadDataset raw deps).issues.map Issue.id = raw.map Issue.id ∧
     (loadDataset raw deps).issues.map Issue.status = raw.map Issue.status) ∧
    (∀ i ∈ (loadDataset raw deps).issues, ∀ b ∈ i.blockedBy,
      ∃ j ∈ (loadDataset raw deps).issues, j.id = b ∧ j.status ≠ Status.closed) ∧
    (∀ i ∈ (loadDataset raw deps).issues,
      (i ∈ (loadDataset raw deps).byStatus Status.blocked ↔
        (i.status = Status.open_ ∧ i.blockedBy ≠ []) ∨ i.status = Status.blocked)) ∧
    (∀ i ∈ (loadDataset raw deps).issues,
      ¬(i.status = Status.open_ ∧ i.blockedBy ≠ []) →
        i ∈ (loadDataset raw deps).byStatus i.status) := by
  have hbucket : ∀ (s : Status) (i : Issue),
      i ∈ (loadDataset raw deps).byStatus s ↔
        i ∈ (loadDataset raw deps).issues ∧ actualStatus i = s := by
    intro s i
    show i ∈ (loadDataset raw deps).issues.filter (fun j => actualStatus j == s) ↔ _
    rw [List.mem_filter]
    constructor
    · intro ⟨h1, h2⟩
      exact ⟨h1, by simpa using h2⟩
    · intro ⟨h1, h2⟩
      exact ⟨h1, by simpa using h2⟩
  have hactual : ∀ i : Issue,
      actualStatus i = Status.blocked ↔
        (i.status = Status.open_ ∧ i.blockedBy ≠ []) ∨ i.status = Status.blocked := by
    intro i
    unfold actualStatus
    by_cases hbb : i.blockedBy = []
    · have he : i.blockedBy.isEmpty = true := by simp [hbb]
      by_cases hst : i.status = Status.open_ <;> simp [he, hbb, hst]
    · have he : i.blockedBy.isEmpty = false := by
        cases hl : i.blockedBy with
        | nil => exact absurd hl hbb
        | cons a l => rfl
      by_cases hst : i.status = Status.open_ <;> simp [he, hbb, hst]
  refine ⟨loadDataset_map_fields raw deps, ?_, ?_, ?_⟩
  · intro i hi b hb
    rcases List.mem_map.1 hi with ⟨r, hr, rfl⟩
    have hb2 := List.mem_filter.1 hb
    have hkept := hb2.2
    unfold blockerKept at hkept
    cases hfind : byIdFind (resolveDeps raw deps) b with
    | none =>
      rw [hfind] at hkept
      cases hkept
    | some blocker =>
      rw [hfind] at hkept
      refine ⟨finalizeIssue (resolveDeps raw deps) blocker,
        List.mem_map.2 ⟨blocker, List.mem_of_find?_eq_some hfind, rfl⟩, ?_, ?_⟩
      · have := List.find?_some (show List.find? (fun j => j.id == b)
          (resolveDeps raw deps) = some blocker from hfind)
        simpa using this
      · show blocker.status ≠ Status.closed
        exact bne_iff_ne.1 hkept
  · intro i hi
    rw [hbucket Status.blocked i, hactual i]
    constructor
    · intro ⟨_, h⟩
      exact h
    · intro h
      exact ⟨hi, h⟩
  · intro i hi hnot
    rw [hbucket i.status i]
    refine ⟨hi, ?_⟩
    unfold actualStatus
    rw [if_neg]
    intro hcon
    rw [Bool.and_eq_true] at hcon
    obtain ⟨h1, h2⟩ := hcon
    have h2x : i.status = Status.open_ := by simpa using h2
    have h1x : i.blockedBy ≠ [] := by
      intro hnil
      rw [hnil] at h1
      simp at h1
    exact hnot ⟨h2x, h1x⟩

/-- Witness for C3 at a concrete load: the open issue b, whose only blocker is
closed, ends with an empty blockedBy and is bucketed under its raw status
open. -/
theorem loadDataset_effective_status_witness :
    cexBlockedB ∈ (loadDataset [cexBlockerA, cexBlockedB] cexDeps).byStatus
      Status.open_ := by
  have h := (loadDataset_effective_status [cexBlockerA, cexBlockedB] cexDeps).2.2.2
  have hmem : cexBlockedB ∈ (loadDataset [cexBlockerA, cexBlockedB] cexDeps).issues := by
    decide
  exact h cexBlockedB hmem (by decide)

/-! ### C8: dependency levels -/

theorem contains_eq_true_iff (l : List String) (a : String) :
    l.contains a = true ↔ a ∈ l := by
  show List.elem a l = true ↔ a ∈ l
  simp [List.elem_eq_mem]

theorem not_contains_eq_true_iff (l : List String) (a : String) :
    (!l.contains a) = true ↔ a ∉ l := by
  rw [Bool.not_eq_true']
  rw [← Bool.not_eq_true (l.contains a)]
  rw [contains_eq_true_iff l a]

theorem flatten_set_perm (l : List (List GraphNode)) (n : Nat) (a : GraphNode)
    (h : n < l.length) :
    List.Perm (l.set n (l.getD n [] ++ [a])).flatten (a :: l.flatten) := by
  induction l generalizing n with
  | nil => simp at h
  | cons r t ih =>
    cases n with
    | zero =>
      simp only [List.set_cons_zero, List.getD_cons_zero, List.flatten_cons]
      exact (List.perm_append_singleton a r).append_right t.flatten
    | succ m =>
      simp only [List.set_cons_succ, List.getD_cons_succ, List.flatten_cons]
      have hm : m < t.length := by simpa using h
      exact ((ih m hm).append_left r).trans List.perm_middle

theorem getD_append_replicate_nil (levels : List (List GraphNode)) (k r : Nat) :
    (levels ++ List.replicate k ([] : List GraphNode)).getD r [] = levels.getD r [] := by
  rcases Nat.lt_or_ge r levels.length with h | h
  · rw [List.getD_eq_getElem?_getD, List.getD_eq_getElem?_getD,
      List.getElem?_append_left h]
  · rw [List.getD_eq_getElem?_getD, List.getD_eq_getElem?_getD,
      List.getElem?_append_right h, List.getElem?_eq_none h, List.getElem?_replicate]
    by_cases hk : r - levels.length < k
    · simp [hk]
    · simp [hk]

theorem pushAtLevel_flatten_perm (levels : List (List GraphNode)) (lvl : Nat) (i : Issue) :
    List.Perm (pushAtLevel levels lvl i).flatten
      ({ issue := i, level := lvl,
         column := ((levels ++ List.replicate (lvl + 1 - levels.length) []).getD
           lvl []).length } :: levels.flatten) := by
  have hlen : lvl < (levels ++ List.replicate (lvl + 1 - levels.length)
      ([] : List GraphNode)).length := by
    simp only [List.length_append, List.length_replicate]
    omega
  have h := flatten_set_perm (levels ++ List.replicate (lvl + 1 - levels.length) []) lvl
    ({ issue := i, level := lvl,
       column := ((levels ++ List.replicate (lvl + 1 - levels.length) []).getD
         lvl []).length }) hlen
  rw [List.flatten_append, List.flatten_replicate_nil, List.append_nil] at h
  exact h

theorem pushAtLevel_mem_flatten {levels : List (List GraphNode)} {lvl : Nat} {i : Issue}
    {node : GraphNode} (h : node ∈ (pushAtLevel levels lvl i).flatten) :
    (node.issue = i ∧ node.level = lvl) ∨ node ∈ levels.flatten := by
  have hp := (pushAtLevel_flatten_perm levels lvl i).mem_iff.1 h
  rcases List.mem_cons.1 hp with h1 | h1
  · left
    rw [h1]
    exact ⟨rfl, rfl⟩
  · right
    exact h1

theorem pushAtLevel_getD {levels : List (List GraphNode)} {lvl : Nat} {i : Issue}
    {r : Nat} {node : GraphNode} (h : node ∈ (pushAtLevel levels lvl i).getD r []) :
    node ∈ levels.getD r [] ∨ (r = lvl ∧ node.level = lvl) := by
  have hlen : lvl < (levels ++ List.replicate (lvl + 1 - levels.length)
      ([] : List GraphNode)).length := by
    simp only [List.length_append, List.length_replicate]
    omega
  simp only [pushAtLevel] at h
  by_cases hr : r = lvl
  · subst hr
    rw [List.getD_eq_getElem?_getD, List.getElem?_set_self hlen, Option.getD_some] at h
    rcases List.mem_append.1 h with h1 | h1
    · rw [getD_append_replicate_nil] at h1
      exact Or.inl h1
    · rw [List.mem_singleton] at h1
      rw [h1]
      exact Or.inr ⟨rfl, rfl⟩
  · rw [List.getD_eq_getElem?_getD,
      List.getElem?_set_ne (fun he => hr he.symm), ← List.getD_eq_getElem?_getD,
      getD_append_replicate_nil] at h
    exact Or.inl h

theorem levelFold_le (byId : List (String × Issue)) (f : Issue → Nat) (l : List String) :
    ∀ a : Nat, a ≤ l.foldl (fun m d =>
      match byId.lookup d with
      | some dep => max m (f dep + 1)
      | none => m) a := by
  induction l with
  | nil => intro a; simp
  | cons d t ih =>
    intro a
    rw [List.foldl_cons]
    cases hd : byId.lookup d with
    | none => simpa [hd] using ih a
    | some dep =>
      calc a ≤ max a (f dep + 1) := Nat.le_max_left _ _
        _ ≤ _ := by simpa [hd] using ih (max a (f dep + 1))

theorem levelFold_zero (byId : List (String × Issue)) (f : Issue → Nat) :
    ∀ l : List String, (∀ b ∈ l, byId.lookup b = none) →
      l.foldl (fun m d =>
        match byId.lookup d with
        | some dep => max m (f dep + 1)
        | none => m) 0 = 0 := by
  intro l
  induction l with
  | nil => intro _; rfl
  | cons d t ih =>
    intro h
    rw [List.foldl_cons]
    have hd : byId.lookup d = none := h d (List.mem_cons_self d t)
    simp only [hd]
    exact ih (fun b hb => h b (List.mem_cons_of_mem d hb))

theorem levelFold_pos (byId : List (String × Issue)) (f : Issue → Nat) :
    ∀ (l : List String) (a : Nat) (b : String) (dep : Issue), b ∈ l →
      byId.lookup b = some dep →
      1 ≤ l.foldl (fun m d =>
        match byId.lookup d with
        | some dep => max m (f dep + 1)
        | none => m) a := by
  intro l
  induction l with
  | nil => intro a b dep hb _; exact absurd hb (List.not_mem_nil b)
  | cons d t ih =>
    intro a b dep hb hl
    rw [List.foldl_cons]
    rcases List.mem_cons.1 hb with rfl | hbt
    · simp only [hl]
      have h1 : 1 ≤ max a (f dep + 1) :=
        le_trans (Nat.succ_le_succ (Nat.zero_le _)) (Nat.le_max_right a (f dep + 1))
      exact le_trans h1 (levelFold_le byId f t _)
    · cases hld : byId.lookup d with
      | none => simp only [hld]; exact ih a b dep hbt hl
      | some dep2 => simp only [hld]; exact ih _ b dep hbt hl

theorem getLevelFuel_fresh (byId : List (String × Issue)) (levels : List (List GraphNode))
    (processed : List String) (f : Nat) (i : Issue) (h : i.id ∉ processed) :
    getLevelFuel byId levels processed (f + 1) i [] =
      i.blockedBy.foldl (fun m d =>
        match byId.lookup d with
        | some dep => max m (getLevelFuel byId levels processed f dep [i.id] + 1)
        | none => m) 0 := by
  have hc : processed.contains i.id = false := by
    rw [← Bool.not_eq_true (processed.contains i.id), contains_eq_true_iff]
    exact h
  simp only [getLevelFuel, hc, Bool.false_eq_true, if_false, List.contains_nil,
    List.nil_append]

theorem depLevels_fold_perm (byId : List (String × Issue)) (fuel : Nat) :
    ∀ (todo : List Issue) (levels : List (List GraphNode)) (processed : List String),
      List.Perm
        ((todo.foldl (fun acc issue =>
            let lvl := getLevelFuel byId acc.1 acc.2 fuel issue []
            (pushAtLevel acc.1 lvl issue, acc.2 ++ [issue.id]))
          (levels, processed)).1.flatten.map (fun n => n.issue))
        (levels.flatten.map (fun n => n.issue) ++ todo) := by
  intro todo
  induction todo with
  | nil =>
    intro levels processed
    simp
  | cons i rest ih =>
    intro levels processed
    rw [List.foldl_cons]
    have h1 := ih (pushAtLevel levels (getLevelFuel byId levels processed fuel i []) i)
      (processed ++ [i.id])
    have h2 := ((pushAtLevel_flatten_perm levels
      (getLevelFuel byId levels processed fuel i []) i).map
      (fun n => n.issue)).append_right rest
    exact (h1.trans h2).trans List.perm_middle.symm

theorem depLevels_fold_row (byId : List (String × Issue)) (fuel : Nat) :
    ∀ (todo : List Issue) (levels : List (List GraphNode)) (processed : List String),
      (∀ r : Nat, ∀ node ∈ levels.getD r [], node.level = r) →
      ∀ r : Nat, ∀ node ∈ ((todo.foldl (fun acc issue =>
          let lvl := getLevelFuel byId acc.1 acc.2 fuel issue []
          (pushAtLevel acc.1 lvl issue, acc.2 ++ [issue.id]))
        (levels, processed)).1.getD r []), node.level = r := by
  intro todo
  induction todo with
  | nil =>
    intro levels processed h r node hmem
    exact h r node hmem
  | cons i rest ih =>
    intro levels processed h r node hmem
    rw [List.foldl_cons] at hmem
    refine ih (pushAtLevel levels (getLevelFuel byId levels processed fuel i []) i)
      (processed ++ [i.id]) ?_ r node hmem
    intro r2 node2 hm2
    rcases pushAtLevel_getD hm2 with h1 | h1
    · exact h r2 node2 h1
    · rw [h1.1]
      exact h1.2

theorem depLevels_fold_zero (byId : List (String × Issue)) (f : Nat) :
    ∀ (todo : List Issue) (levels : List (List GraphNode)) (processed : List String),
      (todo.map Issue.id).Nodup →
      (∀ i ∈ todo, i.id ∉ processed) →
      (∀ node ∈ levels.flatten,
        ((∀ b ∈ node.issue.blockedBy, byId.lookup b = none) ↔ node.level = 0)) →
      ∀ node ∈ ((todo.foldl (fun acc issue =>
          let lvl := getLevelFuel byId acc.1 acc.2 (f + 1) issue []
          (pushAtLevel acc.1 lvl issue, acc.2 ++ [issue.id]))
        (levels, processed)).1.flatten),
        ((∀ b ∈ node.issue.blockedBy, byId.lookup b = none) ↔ node.level = 0) := by
  intro todo
  induction todo with
  | nil =>
    intro levels processed _ _ h node hmem
    exact h node hmem
  | cons i rest ih =>
    intro levels processed hnd hfresh h node hmem
    rw [List.foldl_cons] at hmem
    have hndc : i.id ∉ rest.map Issue.id ∧ (rest.map Issue.id).Nodup :=
      List.nodup_cons.1 (by simpa using hnd)
    have hfr : i.id ∉ processed := hfresh i (List.mem_cons_self i rest)
    have hlvl := getLevelFuel_fresh byId levels processed f i hfr
    refine ih (pushAtLevel levels (getLevelFuel byId levels processed (f + 1) i []) i)
      (processed ++ [i.id]) hndc.2 ?_ ?_ node hmem
    · intro j hj
      have hne : j.id ≠ i.id := by
        intro he
        apply hndc.1
        rw [← he]
        exact List.mem_map_of_mem Issue.id hj
      have h2 : j.id ∉ processed := hfresh j (List.mem_cons_of_mem i hj)
      intro hm
      rcases List.mem_append.1 hm with h3 | h3
      · exact h2 h3
      · exact hne (List.mem_singleton.1 h3)
    · intro node2 hm2
      rcases pushAtLevel_mem_flatten hm2 with ⟨hiss, hlev⟩ | h1
      · rw [hiss, hlev]
        by_cases hres : ∀ b ∈ i.blockedBy, byId.lookup b = none
        · have hz : getLevelFuel byId levels processed (f + 1) i [] = 0 := by
            rw [hlvl]
            exact levelFold_zero byId _ i.blockedBy hres
          exact iff_of_true hres hz
        · have hpos : 1 ≤ getLevelFuel byId levels processed (f + 1) i [] := by
            rw [hlvl]
            push_neg at hres
            obtain ⟨b, hb, hbn⟩ := hres
            cases hlb : byId.lookup b with
            | none => exact absurd hlb hbn
            | some dep => exact levelFold_pos byId _ i.blockedBy 0 b dep hb hlb
          exact iff_of_false hres (by omega)
      · exact h node2 h1

/-- Counterexample to C8 as stated: in the two-cycle dataset x and y block
each other.  The memoized computation first places x at row 2, and when it
later levels y it reads x's stored row index 2 from the already-placed rows
and adds 1, so y lands in row 3; the claimed pure path-based recursion
instead gives level 2 for y (its blocker x, computed afresh along the path
through y, gets level 1).  Row 2 of the output holds only x, so y does not
appear at its claimed level. -/
theorem buildDependencyLevels_cex :
    ((buildDependencyLevels cexCycleData).getD 3 []).map (fun n => n.issue.id) = ["y"] ∧
    ((buildDependencyLevels cexCycleData).getD 2 []).map (fun n => n.issue.id) = ["x"] ∧
    claimLevelFuel cexCycleData.byId (cexCycleData.issues.length + 1) cexY [] = 2 := by
  decide

/-- C8 (amended): for every dataset with duplicate-free issue ids, the leveled
output of buildDependencyLevels contains exactly the issues that participate
in some relationship, each exactly once (isolated issues are excluded); every
node stored in row r carries level r; and a node's level is 0 exactly when
none of its issue's blockers resolves to a real issue.  The claimed pure
path-based recursion for non-zero levels is refuted on blocker cycles, where
the memoized lookup of an already-placed blocker's row differs from the
claimed formula. -/
theorem buildDependencyLevels_spec (data : Dataset)
    (hn : (data.issues.map Issue.id).Nodup) :
    List.Perm ((buildDependencyLevels data).flatten.map (fun n => n.issue))
      (data.issues.filter hasRelationship) ∧
    (∀ r : Nat, ∀ node ∈ ((buildDependencyLevels data).getD r []), node.level = r) ∧
    (∀ node ∈ (buildDependencyLevels data).flatten,
      ((∀ b ∈ node.issue.blockedBy, data.byId.lookup b = none) ↔ node.level = 0)) := by
  refine ⟨?_, ?_, ?_⟩
  · have h := depLevels_fold_perm data.byId (data.issues.length + 1)
      (data.issues.filter hasRelationship) [] []
    simpa using h
  · intro r node hmem
    refine depLevels_fold_row data.byId (data.issues.length + 1)
      (data.issues.filter hasRelationship) [] [] ?_ r node hmem
    intro r2 node2 h2
    simp at h2
  · intro node hmem
    refine depLevels_fold_zero data.byId data.issues.length
      (data.issues.filter hasRelationship) [] [] ?_ ?_ ?_ node hmem
    · exact List.Nodup.sublist ((List.filter_sublist data.issues).map Issue.id) hn
    · intro j hj
      exact List.not_mem_nil j.id
    · intro node2 h2
      simp at h2

/-- Witness for the amended C8 on the two-cycle dataset: its issue ids are
duplicate-free and the leveled output's issues are a permutation of the
participating issues. -/
theorem buildDependencyLevels_spec_witness :
    (cexCycleData.issues.map Issue.id).Nodup ∧
    List.Perm ((buildDependencyLevels cexCycleData).flatten.map (fun n => n.issue))
      (cexCycleData.issues.filter hasRelationship) :=
  ⟨by decide, (buildDependencyLevels_spec cexCycleData (by decide)).1⟩

/-! ### C9: tree builder -/

theorem TreeNode.ids_node (i : Issue) (cs : List TreeNode) (d : Nat) :
    TreeNode.ids (TreeNode.node i cs d) = i.id :: (cs.map TreeNode.ids).flatten := by
  rw [TreeNode.ids]
  rw [List.attach_map_val cs TreeNode.ids]

theorem forestIds_append (ts : List TreeNode) (t : TreeNode) :
    forestIds (ts ++ [t]) = forestIds ts ++ t.ids := by
  simp [forestIds, List.map_append, List.flatten_append]

theorem filter_not_contains_append_lt (keys processed : List String) (x : String)
    (hx : x ∈ keys) (hnp : x ∉ processed) :
    (keys.filter (fun k => !(processed ++ [x]).contains k)).length <
      (keys.filter (fun k => !processed.contains k)).length := by
  have hsub : List.Sublist (keys.filter (fun k => !(processed ++ [x]).contains k))
      (keys.filter (fun k => !processed.contains k)) := by
    refine List.monotone_filter_right keys ?_
    intro a ha
    rw [not_contains_eq_true_iff] at ha ⊢
    intro hmem
    exact ha (List.mem_append_left _ hmem)
  have hne : keys.filter (fun k => !(processed ++ [x]).contains k) ≠
      keys.filter (fun k => !processed.contains k) := by
    intro he
    have hx1 : x ∈ keys.filter (fun k => !processed.contains k) := by
      rw [List.mem_filter]
      exact ⟨hx, (not_contains_eq_true_iff processed x).2 hnp⟩
    have hx2 : x ∉ keys.filter (fun k => !(processed ++ [x]).contains k) := by
      rw [List.mem_filter]
      rintro ⟨-, hpx⟩
      rw [not_contains_eq_true_iff] at hpx
      exact hpx (List.mem_append_right _ (List.mem_singleton_self x))
    rw [he] at hx2
    exact hx2 hx1
  rcases Nat.eq_or_lt_of_le hsub.length_le with he | h
  · exact absurd (hsub.eq_of_length he) hne
  · exact h

theorem buildNodeFuel_succ (byId : List (String × Issue)) (f : Nat) (issue : Issue)
    (depth : Nat) (processed : List String) :
    buildNodeFuel byId (f + 1) issue depth processed =
      (TreeNode.node issue
        ((issue.children.foldl (fun acc childId =>
          match byId.lookup childId with
          | some child =>
            if acc.2.contains childId then acc
            else
              let cr := buildNodeFuel byId f child (depth + 1) acc.2
              (acc.1 ++ [cr.1], cr.2)
          | none => acc) (([] : List TreeNode), processed ++ [issue.id])).1) depth,
       (issue.children.foldl (fun acc childId =>
          match byId.lookup childId with
          | some child =>
            if acc.2.contains childId then acc
            else
              let cr := buildNodeFuel byId f child (depth + 1) acc.2
              (acc.1 ++ [cr.1], cr.2)
          | none => acc) (([] : List TreeNode), processed ++ [issue.id])).2) := rfl

theorem buildNodeFuel_spec (byId : List (String × Issue))
    (hwf : ∀ p ∈ byId, (Prod.snd p).id = Prod.fst p) :
    ∀ (fuel : Nat) (issue : Issue) (depth : Nat) (processed : List String),
      processed.Nodup →
      issue.id ∉ processed →
      issue.id ∈ byId.map Prod.fst →
      ((byId.map Prod.fst).filter (fun k => !processed.contains k)).length < fuel →
      (buildNodeFuel byId fuel issue depth processed).2 =
          processed ++ (buildNodeFuel byId fuel issue depth processed).1.ids ∧
        (buildNodeFuel byId fuel issue depth processed).2.Nodup ∧
        (buildNodeFuel byId fuel issue depth processed).1.issue = issue ∧
        (buildNodeFuel byId fuel issue depth processed).1.depth = depth := by
  intro fuel
  induction fuel with
  | zero =>
    intro issue depth processed _ _ _ hf
    exact absurd hf (Nat.not_lt_zero _)
  | succ f ih =>
    intro issue depth processed hnd hfresh hmem hf
    have hstep : ∀ (cs : List String) (trees : List TreeNode) (proc : List String)
        (res : List TreeNode × List String),
        proc.Nodup →
        proc = processed ++ issue.id :: (trees.map TreeNode.ids).flatten →
        res = cs.foldl (fun acc childId =>
          match byId.lookup childId with
          | some child =>
            if acc.2.contains childId then acc
            else
              let cr := buildNodeFuel byId f child (depth + 1) acc.2
              (acc.1 ++ [cr.1], cr.2)
          | none => acc) (trees, proc) →
        res.2 = processed ++ issue.id :: ((res.1.map TreeNode.ids).flatten) ∧
          res.2.Nodup := by
      intro cs
      induction cs with
      | nil =>
        intro trees proc res hnp heq hres
        rw [List.foldl_nil] at hres
        subst hres
        exact ⟨heq, hnp⟩
      | cons c cs2 ih2 =>
        intro trees proc res hnp heq hres
        rw [List.foldl_cons] at hres
        cases hlc : byId.lookup c with
        | none =>
          simp only [hlc] at hres
          exact ih2 trees proc res hnp heq hres
        | some child =>
          simp only [hlc] at hres
          by_cases hcc : proc.contains c = true
          · rw [if_pos hcc] at hres
            exact ih2 trees proc res hnp heq hres
          · rw [if_neg hcc] at hres
            have hcmem : (c, child) ∈ byId := mem_of_lookup_eq_some hlc
            have hcid : child.id = c := hwf (c, child) hcmem
            have hcfresh : child.id ∉ proc := by
              rw [hcid]
              intro hm
              exact hcc ((contains_eq_true_iff proc c).2 hm)
            have hcmemk : child.id ∈ byId.map Prod.fst := by
              rw [hcid]
              exact List.mem_map.2 ⟨(c, child), hcmem, rfl⟩
            have hprocmem : ∀ y ∈ processed ++ [issue.id], y ∈ proc := by
              intro y hy
              rw [heq]
              rcases List.mem_append.1 hy with h1 | h1
              · exact List.mem_append_left _ h1
              · rw [List.mem_singleton.1 h1]
                exact List.mem_append_right _ (List.mem_cons_self _ _)
            have hflt : ((byId.map Prod.fst).filter
                (fun k => !proc.contains k)).length < f := by
              have h1 : ((byId.map Prod.fst).filter
                  (fun k => !proc.contains k)).length ≤
                  ((byId.map Prod.fst).filter
                    (fun k => !(processed ++ [issue.id]).contains k)).length := by
                refine (List.monotone_filter_right _ ?_).length_le
                intro a ha
                rw [not_contains_eq_true_iff] at ha ⊢
                intro hm2
                exact ha (hprocmem a hm2)
              have h2 := filter_not_contains_append_lt (byId.map Prod.fst) processed
                issue.id hmem hfresh
              omega
            obtain ⟨hr1, hr2, hr3, hr4⟩ :=
              ih child (depth + 1) proc hnp hcfresh hcmemk hflt
            refine ih2 (trees ++ [(buildNodeFuel byId f child (depth + 1) proc).1])
              (buildNodeFuel byId f child (depth + 1) proc).2 res hr2 ?_ hres
            rw [hr1, heq]
            simp [List.map_append, List.flatten_append, List.append_assoc]
    have hnd1 : (processed ++ [issue.id]).Nodup := by
      rw [List.nodup_append]
      refine ⟨hnd, List.nodup_singleton _, ?_⟩
      intro a ha hb
      rw [List.mem_singleton] at hb
      subst hb
      exact hfresh ha
    have heq1 : processed ++ [issue.id] =
        processed ++ issue.id :: (([] : List TreeNode).map TreeNode.ids).flatten := by
      simp
    have hmain := hstep issue.children [] (processed ++ [issue.id]) _ hnd1 heq1 rfl
    rw [buildNodeFuel_succ]
    refine ⟨?_, hmain.2, rfl, rfl⟩
    dsimp only
    rw [TreeNode.ids_node]
    exact hmain.1

theorem buildTree_fold (byId : List (String × Issue)) (fuel : Nat)
    (hwf : ∀ p ∈ byId, (Prod.snd p).id = Prod.fst p)
    (hfuel : (byId.map Prod.fst).length < fuel) :
    ∀ (roots : List Issue) (forest : List TreeNode) (proc : List String)
      (res : List TreeNode × List String),
      proc = forestIds forest →
      proc.Nodup →
      (∀ i ∈ roots, i.id ∈ byId.map Prod.fst) →
      res = roots.foldl (fun acc rootIssue =>
        if acc.2.contains rootIssue.id then acc
        else
          let r := buildNodeFuel byId fuel rootIssue 0 acc.2
          (acc.1 ++ [r.1], r.2)) (forest, proc) →
      res.2 = forestIds res.1 ∧
        res.2.Nodup ∧
        (∀ x ∈ proc, x ∈ res.2) ∧
        (∀ i ∈ roots, i.id ∈ res.2) ∧
        (∃ rest : List TreeNode, res.1 = forest ++ rest ∧
          List.Sublist (rest.map TreeNode.issue) roots ∧ ∀ t ∈ rest, t.depth = 0) := by
  intro roots
  induction roots with
  | nil =>
    intro forest proc res heq hnp _ hres
    rw [List.foldl_nil] at hres
    subst hres
    refine ⟨heq, hnp, fun x hx => hx, fun i hi => absurd hi (List.not_mem_nil i), [], ?_⟩
    exact ⟨by simp, List.nil_sublist _, fun t ht => absurd ht (List.not_mem_nil t)⟩
  | cons rt roots2 ih =>
    intro forest proc res heq hnp hkeys hres
    rw [List.foldl_cons] at hres
    by_cases hc : proc.contains rt.id = true
    · rw [if_pos hc] at hres
      obtain ⟨g1, g2, g3, g4, rest, g5, g6, g7⟩ :=
        ih forest proc res heq hnp (fun i hi => hkeys i (List.mem_cons_of_mem rt hi)) hres
      refine ⟨g1, g2, g3, ?_, rest, g5, List.Sublist.cons rt g6, g7⟩
      intro i hi
      rcases List.mem_cons.1 hi with rfl | hi2
      · exact g3 i.id ((contains_eq_true_iff proc i.id).1 hc)
      · exact g4 i hi2
    · rw [if_neg hc] at hres
      have hfresh : rt.id ∉ proc := fun hm => hc ((contains_eq_true_iff proc rt.id).2 hm)
      have hmemk : rt.id ∈ byId.map Prod.fst := hkeys rt (List.mem_cons_self rt roots2)
      have hflt : ((byId.map Prod.fst).filter (fun k => !proc.contains k)).length <
          fuel := by
        have h1 := List.length_filter_le (fun k => !proc.contains k) (byId.map Prod.fst)
        omega
      obtain ⟨hb1, hb2, hb3, hb4⟩ :=
        buildNodeFuel_spec byId hwf fuel rt 0 proc hnp hfresh hmemk hflt
      have hrtid : rt.id ∈ (buildNodeFuel byId fuel rt 0 proc).1.ids := by
        cases hcase : (buildNodeFuel byId fuel rt 0 proc).1 with
        | node i cs d =>
          rw [TreeNode.ids_node]
          have : i = rt := by
            have h5 := hb3
            rw [hcase] at h5
            exact h5
          rw [this]
          exact List.mem_cons_self _ _
      have heq2 : (buildNodeFuel byId fuel rt 0 proc).2 =
          forestIds (forest ++ [(buildNodeFuel byId fuel rt 0 proc).1]) := by
        rw [forestIds_append, hb1, heq]
      obtain ⟨g1, g2, g3, g4, rest, g5, g6, g7⟩ :=
        ih (forest ++ [(buildNodeFuel byId fuel rt 0 proc).1])
          (buildNodeFuel byId fuel rt 0 proc).2 res heq2 hb2
          (fun i hi => hkeys i (List.mem_cons_of_mem rt hi)) hres
      refine ⟨g1, g2, ?_, ?_, (buildNodeFuel byId fuel rt 0 proc).1 :: rest, ?_, ?_, ?_⟩
      · intro x hx
        refine g3 x ?_
        rw [hb1]
        exact List.mem_append_left _ hx
      · intro i hi
        rcases List.mem_cons.1 hi with rfl | hi2
        · refine g3 i.id ?_
          rw [hb1]
          exact List.mem_append_right _ hrtid
        · exact g4 i hi2
      · rw [g5]
        simp
      · rw [List.map_cons, hb3]
        exact List.Sublist.cons₂ rt g6
      · intro t ht
        rcases List.mem_cons.1 ht with rfl | ht2
        · exact hb4
        · exact g7 t ht2

/-- Counterexample to C9 as stated: in the tree dataset r's parent ghost is
unresolved, so the claim makes r a root of the forest; but q's stale children
entry reaches r first during the depth-first traversal, the shared processed
set then suppresses r as a root, and the forest consists of the single root q
with r attached beneath it. -/
theorem buildTree_cex :
    isRootIssue cexTreeData.byId cexR = true ∧
    (buildTree cexTreeData).map (fun t => t.issue.id) = ["q"] ∧
    (buildTree cexTreeData).map (fun t => t.children.map (fun c => c.issue.id)) =
      [["r"]] := by
  decide

/-- C9 (amended): for every dataset whose id index is the standard one built
from its issues, the tree builder terminates with a forest in which every
issue appears at most once (the concatenated depth-first id lists are
duplicate-free); the roots form a subsequence, in original issue order and at
depth 0, of the issues whose parent is absent or unresolved; and every issue
whose parent is absent or unresolved appears somewhere in the forest, though
not necessarily as a root, since an earlier root may already have claimed it
as a descendant through a stale children entry. -/
theorem buildTree_spec (data : Dataset)
    (hby : data.byId = data.issues.map (fun i => (i.id, i))) :
    (forestIds (buildTree data)).Nodup ∧
    List.Sublist ((buildTree data).map TreeNode.issue)
      (data.issues.filter (isRootIssue data.byId)) ∧
    (∀ t ∈ buildTree data, t.depth = 0) ∧
    (∀ i ∈ data.issues, isRootIssue data.byId i = true →
      i.id ∈ forestIds (buildTree data)) := by
  have hwf : ∀ p ∈ data.byId, (Prod.snd p).id = Prod.fst p := by
    intro p hp
    rw [hby] at hp
    obtain ⟨i, _, rfl⟩ := List.mem_map.1 hp
    rfl
  have hkeys : ∀ i ∈ data.issues.filter (isRootIssue data.byId),
      i.id ∈ data.byId.map Prod.fst := by
    intro i hi
    rw [hby, List.map_map]
    exact List.mem_map.2 ⟨i, (List.mem_filter.1 hi).1, rfl⟩
  have hfuel : (data.byId.map Prod.fst).length < data.issues.length + 1 := by
    rw [hby, List.map_map, List.length_map]
    omega
  obtain ⟨g1, g2, g3, g4, rest, g5, g6, g7⟩ :=
    buildTree_fold data.byId (data.issues.length + 1) hwf hfuel
      (data.issues.filter (isRootIssue data.byId)) [] []
      ((data.issues.filter (isRootIssue data.byId)).foldl (fun acc rootIssue =>
        if acc.2.contains rootIssue.id then acc
        else
          let r := buildNodeFuel data.byId (data.issues.length + 1) rootIssue 0 acc.2
          (acc.1 ++ [r.1], r.2)) (([] : List TreeNode), ([] : List String)))
      rfl List.nodup_nil hkeys rfl
  have hbt : buildTree data =
      ((data.issues.filter (isRootIssue data.byId)).foldl (fun acc rootIssue =>
        if acc.2.contains rootIssue.id then acc
        else
          let r := buildNodeFuel data.byId (data.issues.length + 1) rootIssue 0 acc.2
          (acc.1 ++ [r.1], r.2)) (([] : List TreeNode), ([] : List String))).1 := rfl
  refine ⟨?_, ?_, ?_, ?_⟩
  · rw [hbt, ← g1]
    exact g2
  · rw [hbt, g5]
    simpa using g6
  · intro t ht
    rw [hbt, g5] at ht
    refine g7 t ?_
    simpa using ht
  · intro i hi hroot
    rw [hbt, ← g1]
    exact g4 i (List.mem_filter.2 ⟨hi, hroot⟩)

/-- Witness for the amended C9 on the tree dataset: its id index is the
standard one and the concatenated depth-first id lists of the resulting
forest are duplicate-free. -/
theorem buildTree_spec_witness :
    cexTreeData.byId = cexTreeData.issues.map (fun i => (i.id, i)) ∧
    (forestIds (buildTree cexTreeData)).Nodup :=
  ⟨rfl, (buildTree_spec cexTreeData rfl).1⟩

end Bdui

